import Mathlib

/-!
Shallow embedding of cctz's civil-time engine
(`src/include/cctz/civil_time_detail.h`) and proofs about it.

Machine integers (`year_t`, `diff_t`, the field types) are modelled as
unbounded `Int`; every `/` and `%` in the source is C++ truncated division,
modelled by `cdiv`/`cmod` below (all divisors in the source are positive
constants, for which the `if`-formula below is exactly C truncation).
The unbounded `for (;;)` loops of `impl::n_day` are modelled with an explicit
fuel argument; `n_day` passes fuel that provably exceeds the iteration count
of each loop (see the loop-bound theorems), so the embedding computes the
same fields the C++ does.
-/

set_option maxHeartbeats 1000000

namespace Cctz

/-- C++ truncated integer division (round toward zero) for a positive
divisor, expressed with Lean's Euclidean division. -/
def cdiv (a b : Int) : Int := if 0 ≤ a then a / b else -((-a) / b)

/-- C++ `%` (remainder of truncated division) for a positive divisor. -/
def cmod (a b : Int) : Int := a - b * cdiv a b

/-- Normalized civil-time fields Y-M-D HH:MM:SS (struct `fields`). -/
structure Fields where
  y : Int
  m : Int
  d : Int
  hh : Int
  mm : Int
  ss : Int
deriving DecidableEq, Repr

/-- The six unit tags (`second_tag` .. `year_tag`). -/
inductive UnitTag where
  | second
  | minute
  | hour
  | day
  | month
  | year
deriving DecidableEq, Repr

/-- The enum `weekday`. -/
inductive Weekday where
  | monday
  | tuesday
  | wednesday
  | thursday
  | friday
  | saturday
  | sunday
deriving DecidableEq, Repr

/-- `impl::is_leap_year`. -/
def is_leap_year (y : Int) : Bool :=
  cmod y 4 == 0 && (cmod y 100 != 0 || cmod y 400 == 0)

/-- `impl::year_index`: index of year `y` (shifted by one for months past
February) in the 400-year Gregorian cycle. -/
def year_index (y m : Int) : Int :=
  let yi := cmod (y + (if m > 2 then 1 else 0)) 400
  if yi < 0 then yi + 400 else yi

/-- `impl::days_per_century`: days in the 100 years starting at cycle
index `yi`. -/
def days_per_century (yi : Int) : Int :=
  36524 + (if yi = 0 ∨ yi > 300 then 1 else 0)

/-- `impl::days_per_4years`: days in the 4 years starting at cycle
index `yi`. -/
def days_per_4years (yi : Int) : Int :=
  1460 + (if yi = 0 ∨ yi > 300 ∨ cmod (yi - 1) 100 < 96 then 1 else 0)

/-- `impl::days_per_year`: days from month `m` of year `y` to month `m` of
year `y+1`. -/
def days_per_year (y m : Int) : Int :=
  if is_leap_year (y + (if m > 2 then 1 else 0)) then 366 else 365

/-- The table `k_days_per_month` (index 0 holds -1 in the source; indices
outside [0,12] are out-of-bounds reads there, i.e. undefined behaviour, and
are mapped to -1 here; every call site passes a normalized month). -/
def k_days_per_month (m : Int) : Int :=
  if m = 1 then 31 else if m = 2 then 28 else if m = 3 then 31
  else if m = 4 then 30 else if m = 5 then 31 else if m = 6 then 30
  else if m = 7 then 31 else if m = 8 then 31 else if m = 9 then 30
  else if m = 10 then 31 else if m = 11 then 30 else if m = 12 then 31
  else -1

/-- `impl::days_per_month`. -/
def days_per_month (y m : Int) : Int :=
  k_days_per_month m + (if m = 2 ∧ is_leap_year y then 1 else 0)

/-- `impl::ymd_ord`: days of a normalized Y/M/D before/after 1970-01-01
(Hinnant's era/year-of-era algorithm). -/
def ymd_ord (y m d : Int) : Int :=
  let eyear := if m ≤ 2 then y - 1 else y
  let era := cdiv (if eyear ≥ 0 then eyear else eyear - 399) 400
  let yoe := eyear - era * 400
  let doy := cdiv (153 * (m + (if m > 2 then -3 else 9)) + 2) 5 + d - 1
  let doe := yoe * 365 + cdiv yoe 4 - cdiv yoe 100 + doy
  era * 146097 + doe - 719468

/-- Cumulative days before month `m` counted in the March-first calendar;
proof-side abbreviation for the value of `impl::ymd_ord`'s day-of-year
term at `d = 1`. -/
def mcount (m : Int) : Int :=
  if m = 1 then 306 else if m = 2 then 337 else if m = 3 then 0
  else if m = 4 then 31 else if m = 5 then 61 else if m = 6 then 92
  else if m = 7 then 122 else if m = 8 then 153 else if m = 9 then 184
  else if m = 10 then 214 else if m = 11 then 245 else 275

/-- The first `for (;;)` loop of `impl::n_day`: advance whole centuries.
State is (ey, yi, d); the source loop runs until `d <= n`, which the fuel
passed by `n_day` provably always reaches. -/
def century_loop (fuel : Nat) (ey yi d : Int) : Int × Int × Int :=
  match fuel with
  | 0 => (ey, yi, d)
  | fuel + 1 =>
      let n := days_per_century yi
      if d ≤ n then (ey, yi, d)
      else
        let yi1 := yi + 100
        century_loop fuel (ey + 100) (if yi1 ≥ 400 then yi1 - 400 else yi1) (d - n)

/-- The second `for (;;)` loop of `impl::n_day`: advance whole 4-year
blocks. -/
def fouryears_loop (fuel : Nat) (ey yi d : Int) : Int × Int × Int :=
  match fuel with
  | 0 => (ey, yi, d)
  | fuel + 1 =>
      let n := days_per_4years yi
      if d ≤ n then (ey, yi, d)
      else
        let yi1 := yi + 4
        fouryears_loop fuel (ey + 4) (if yi1 ≥ 400 then yi1 - 400 else yi1) (d - n)

/-- The third `for (;;)` loop of `impl::n_day`: advance single years. -/
def year_loop (fuel : Nat) (ey m d : Int) : Int × Int :=
  match fuel with
  | 0 => (ey, d)
  | fuel + 1 =>
      let n := days_per_year ey m
      if d ≤ n then (ey, d)
      else year_loop fuel (ey + 1) m (d - n)

/-- The fourth `for (;;)` loop of `impl::n_day`: advance whole months,
wrapping December into the next year. -/
def month_loop (fuel : Nat) (ey m d : Int) : Int × Int × Int :=
  match fuel with
  | 0 => (ey, m, d)
  | fuel + 1 =>
      let n := days_per_month ey m
      if d ≤ n then (ey, m, d)
      else
        if m + 1 > 12 then month_loop fuel (ey + 1) 1 (d - n)
        else month_loop fuel ey (m + 1) (d - n)

/-- Iteration count of `century_loop` (same recursion structure). -/
def century_iters (fuel : Nat) (yi d : Int) : Nat :=
  match fuel with
  | 0 => 0
  | fuel + 1 =>
      let n := days_per_century yi
      if d ≤ n then 0
      else
        let yi1 := yi + 100
        1 + century_iters fuel (if yi1 ≥ 400 then yi1 - 400 else yi1) (d - n)

/-- Iteration count of `fouryears_loop` (same recursion structure). -/
def fouryears_iters (fuel : Nat) (yi d : Int) : Nat :=
  match fuel with
  | 0 => 0
  | fuel + 1 =>
      let n := days_per_4years yi
      if d ≤ n then 0
      else
        let yi1 := yi + 4
        1 + fouryears_iters fuel (if yi1 ≥ 400 then yi1 - 400 else yi1) (d - n)

/-- Iteration count of `year_loop` (same recursion structure). -/
def year_iters (fuel : Nat) (ey m d : Int) : Nat :=
  match fuel with
  | 0 => 0
  | fuel + 1 =>
      let n := days_per_year ey m
      if d ≤ n then 0
      else 1 + year_iters fuel (ey + 1) m (d - n)

/-- Iteration count of `month_loop` (same recursion structure). -/
def month_iters (fuel : Nat) (ey m d : Int) : Nat :=
  match fuel with
  | 0 => 0
  | fuel + 1 =>
      let n := days_per_month ey m
      if d ≤ n then 0
      else
        if m + 1 > 12 then 1 + month_iters fuel (ey + 1) 1 (d - n)
        else 1 + month_iters fuel ey (m + 1) (d - n)

/-- The pre-loop reduction of `impl::n_day` (everything before the first
loop): fold the day carry `cd` and the raw day count into the working year
accumulator in whole 400-year cycles, leaving a positive day count. -/
def n_day_prep (y m d cd : Int) : Int × Int :=
  let ey0 := cmod y 400
  let ey1 := ey0 + cdiv cd 146097 * 400
  let cd1 := cmod cd 146097
  let p1 := if cd1 < 0 then (ey1 - 400, cd1 + 146097) else (ey1, cd1)
  let ey3 := p1.1 + cdiv d 146097 * 400
  let d1 := cmod d 146097 + p1.2
  if d1 > 0 then
    if d1 > 146097 then (ey3 + 400, d1 - 146097) else (ey3, d1)
  else
    if d1 > -365 then (ey3 - 1, d1 + days_per_year (ey3 - 1) m)
    else (ey3 - 400, d1 + 146097)

/-- The loop section of `impl::n_day`: centuries, 4-year blocks and single
years (entered only when more than a year of days remains), then whole
months (entered only when more than 28 days remain). -/
def day_loops (ey m d : Int) : Int × Int × Int :=
  let p3 :=
    if d > 365 then
      let yi := year_index ey m
      let q1 := century_loop (d.toNat + 1) ey yi d
      let q2 := fouryears_loop (q1.2.2.toNat + 1) q1.1 q1.2.1 q1.2.2
      let q3 := year_loop (q2.2.2.toNat + 1) q2.1 m q2.2.2
      (q3.1, q3.2)
    else (ey, d)
  if p3.2 > 28 then month_loop (p3.2.toNat + 1) p3.1 m p3.2 else (p3.1, m, p3.2)

/-- `impl::n_day`: the day/month/year normalization step, as the
composition of its pre-loop reduction, its loop section, and the final
recombination of the accumulated year offset with the original year. -/
def n_day (y m d cd hh mm ss : Int) : Fields :=
  let oey := cmod y 400
  let p := n_day_prep y m d cd
  let r := day_loops p.1 m p.2
  ⟨y + (r.1 - oey), r.2.1, r.2.2, hh, mm, ss⟩

/-- `impl::n_mon`: normalize the month into [1,12] with a year carry, then
delegate to `n_day`. -/
def n_mon (y m d cd hh mm ss : Int) : Fields :=
  if m ≠ 12 then
    let y1 := y + cdiv m 12
    let m1 := cmod m 12
    if m1 ≤ 0 then n_day (y1 - 1) (m1 + 12) d cd hh mm ss
    else n_day y1 m1 d cd hh mm ss
  else n_day y m d cd hh mm ss

/-- `impl::n_hour`: normalize hours into [0,24) with a day carry, then
delegate to `n_mon`. -/
def n_hour (y m d cd hh mm ss : Int) : Fields :=
  let cd1 := cd + cdiv hh 24
  let hh1 := cmod hh 24
  if hh1 < 0 then n_mon y m d (cd1 - 1) (hh1 + 24) mm ss
  else n_mon y m d cd1 hh1 mm ss

/-- `impl::n_min`: normalize minutes into [0,60) with an hour carry, then
delegate to `n_hour`. -/
def n_min (y m d hh ch mm ss : Int) : Fields :=
  let ch1 := ch + cdiv mm 60
  let mm1 := cmod mm 60
  if mm1 < 0 then
    n_hour y m d (cdiv hh 24 + cdiv (ch1 - 1) 24) (cmod hh 24 + cmod (ch1 - 1) 24) (mm1 + 60) ss
  else n_hour y m d (cdiv hh 24 + cdiv ch1 24) (cmod hh 24 + cmod ch1 24) mm1 ss

/-- `impl::n_sec`: entry point of the normalization cascade, with the
fast path for already-normalized fields. -/
def n_sec (y m d hh mm ss : Int) : Fields :=
  if 0 ≤ ss ∧ ss < 60 then
    if 0 ≤ mm ∧ mm < 60 then
      if 0 ≤ hh ∧ hh < 24 then
        if 1 ≤ d ∧ d ≤ 28 ∧ 1 ≤ m ∧ m ≤ 12 then ⟨y, m, d, hh, mm, ss⟩
        else n_mon y m d 0 hh mm ss
      else n_hour y m d (cdiv hh 24) (cmod hh 24) mm ss
    else n_min y m d hh (cdiv mm 60) (cmod mm 60) ss
  else
    let cm := cdiv ss 60
    let ss1 := cmod ss 60
    if ss1 < 0 then
      n_min y m d hh (cdiv mm 60 + cdiv (cm - 1) 60) (cmod mm 60 + cmod (cm - 1) 60) (ss1 + 60)
    else n_min y m d hh (cdiv mm 60 + cdiv cm 60) (cmod mm 60 + cmod cm 60) ss1

/-- `step` at each unit tag: re-enter the normalization cascade at the
value's own unit. -/
def step (t : UnitTag) (f : Fields) (n : Int) : Fields :=
  match t with
  | .second => n_sec f.y f.m f.d f.hh (f.mm + cdiv n 60) (f.ss + cmod n 60)
  | .minute => n_min f.y f.m f.d (f.hh + cdiv n 60) 0 (f.mm + cmod n 60) f.ss
  | .hour => n_hour f.y f.m (f.d + cdiv n 24) 0 (f.hh + cmod n 24) f.mm f.ss
  | .day => n_day f.y f.m f.d n f.hh f.mm f.ss
  | .month => n_mon (f.y + cdiv n 12) (f.m + cmod n 12) f.d 0 f.hh f.mm f.ss
  | .year => ⟨f.y + n, f.m, f.d, f.hh, f.mm, f.ss⟩

/-- `impl::scale_add`: `v * f + a` computed so that only the final value
need be representable. -/
def scale_add (v f a : Int) : Int :=
  if v < 0 then (v + 1) * f + a - f else (v - 1) * f + a + f

/-- `impl::ymd_ord` difference with 400-year cycles factored out
(`impl::day_difference`). -/
def day_difference (y1 m1 d1 y2 m2 d2 : Int) : Int :=
  let a_c4_off := cmod y1 400
  let b_c4_off := cmod y2 400
  let c4_diff := (y1 - a_c4_off) - (y2 - b_c4_off)
  let delta := ymd_ord a_c4_off m1 d1 - ymd_ord b_c4_off m2 d2
  let p :=
    if c4_diff > 0 ∧ delta < 0 then (delta + 2 * 146097, c4_diff - 2 * 400)
    else if c4_diff < 0 ∧ delta > 0 then (delta - 2 * 146097, c4_diff + 2 * 400)
    else (delta, c4_diff)
  cdiv p.2 400 * 146097 + p.1

/-- `difference` at each unit tag (the overload family in the source). -/
def difference (t : UnitTag) (f1 f2 : Fields) : Int :=
  match t with
  | .year => f1.y - f2.y
  | .month => scale_add (f1.y - f2.y) 12 (f1.m - f2.m)
  | .day => day_difference f1.y f1.m f1.d f2.y f2.m f2.d
  | .hour => scale_add (day_difference f1.y f1.m f1.d f2.y f2.m f2.d) 24 (f1.hh - f2.hh)
  | .minute =>
      scale_add (scale_add (day_difference f1.y f1.m f1.d f2.y f2.m f2.d) 24 (f1.hh - f2.hh))
        60 (f1.mm - f2.mm)
  | .second =>
      scale_add
        (scale_add (scale_add (day_difference f1.y f1.m f1.d f2.y f2.m f2.d) 24 (f1.hh - f2.hh))
          60 (f1.mm - f2.mm))
        60 (f1.ss - f2.ss)

/-- `align` at each unit tag: zero-fill (or one-fill, for month and day)
every field finer than the tag. -/
def align (t : UnitTag) (f : Fields) : Fields :=
  match t with
  | .second => f
  | .minute => ⟨f.y, f.m, f.d, f.hh, f.mm, 0⟩
  | .hour => ⟨f.y, f.m, f.d, f.hh, 0, 0⟩
  | .day => ⟨f.y, f.m, f.d, 0, 0, 0⟩
  | .month => ⟨f.y, f.m, 1, 0, 0, 0⟩
  | .year => ⟨f.y, 1, 1, 0, 0, 0⟩

/-- The C++ `INT64_MIN`, the one subtrahend negated in two steps by
`civil_time::operator-`. -/
def int64_min : Int := -(2 ^ 63)

/-- The `civil_time` constructor from raw fields: run the cascade, then
align to the unit (the designated constructor aligns). -/
def civil_make (t : UnitTag) (y m d hh mm ss : Int) : Fields :=
  align t (n_sec y m d hh mm ss)

/-- A default-constructed `civil_time`: 1970-01-01 00:00:00. -/
def civil_default : Fields := ⟨1970, 1, 1, 0, 0, 0⟩

/-- `civil_time::operator+`: step at the unit, then the designated
constructor aligns. -/
def civil_add (t : UnitTag) (f : Fields) (n : Int) : Fields :=
  align t (step t f n)

/-- `civil_time::operator-` for a count: negate and step, except that
`INT64_MIN` is negated in two steps. -/
def civil_sub (t : UnitTag) (f : Fields) (n : Int) : Fields :=
  if n ≠ int64_min then align t (step t f (-n))
  else align t (step t (step t f (-(n + 1))) 1)

/-- `civil_time::operator-` for two same-unit values. -/
def civil_diff (t : UnitTag) (f1 f2 : Fields) : Int :=
  difference t f1 f2

/-- The relational `operator<` on civil times: lexicographic over all six
fields. -/
def civil_lt (a b : Fields) : Bool :=
  decide (a.y < b.y) ||
    (decide (a.y = b.y) &&
      (decide (a.m < b.m) ||
        (decide (a.m = b.m) &&
          (decide (a.d < b.d) ||
            (decide (a.d = b.d) &&
              (decide (a.hh < b.hh) ||
                (decide (a.hh = b.hh) &&
                  (decide (a.mm < b.mm) ||
                    (decide (a.mm = b.mm) && decide (a.ss < b.ss))))))))))

/-- The relational `operator<=`: negated reversed `operator<`. -/
def civil_le (a b : Fields) : Bool := ! civil_lt b a

/-- The table `k_weekday_by_mon_off` in `get_weekday` (13 entries). -/
def k_weekday_by_mon_off (i : Int) : Weekday :=
  if i = 0 then .monday else if i = 1 then .tuesday else if i = 2 then .wednesday
  else if i = 3 then .thursday else if i = 4 then .friday else if i = 5 then .saturday
  else if i = 6 then .sunday else if i = 7 then .monday else if i = 8 then .tuesday
  else if i = 9 then .wednesday else if i = 10 then .thursday else if i = 11 then .friday
  else .saturday

/-- The table `k_weekday_offsets` in `get_weekday` (13 entries). -/
def k_weekday_offsets (m : Int) : Int :=
  if m = 0 then -1 else if m = 1 then 0 else if m = 2 then 3 else if m = 3 then 2
  else if m = 4 then 5 else if m = 5 then 0 else if m = 6 then 3 else if m = 7 then 5
  else if m = 8 then 1 else if m = 9 then 4 else if m = 10 then 6 else if m = 11 then 2
  else 4

/-- `get_weekday` (the civil value is passed by widening to seconds, which
keeps all six fields unchanged). -/
def get_weekday (f : Fields) : Weekday :=
  let wd1 := 2400 + cmod f.y 400 - (if f.m < 3 then 1 else 0)
  let wd2 := wd1 + cdiv wd1 4 - cdiv wd1 100 + cdiv wd1 400
  let wd3 := wd2 + k_weekday_offsets f.m + f.d
  k_weekday_by_mon_off (cmod wd3 7 + 6)

/-- The table `k_weekdays_forw` in `next_weekday` (14 entries). -/
def k_weekdays_forw (i : Nat) : Weekday :=
  if i = 0 then .monday else if i = 1 then .tuesday else if i = 2 then .wednesday
  else if i = 3 then .thursday else if i = 4 then .friday else if i = 5 then .saturday
  else if i = 6 then .sunday else if i = 7 then .monday else if i = 8 then .tuesday
  else if i = 9 then .wednesday else if i = 10 then .thursday else if i = 11 then .friday
  else if i = 12 then .saturday else .sunday

/-- The table `k_weekdays_back` in `prev_weekday` (14 entries). -/
def k_weekdays_back (i : Nat) : Weekday :=
  if i = 0 then .sunday else if i = 1 then .saturday else if i = 2 then .friday
  else if i = 3 then .thursday else if i = 4 then .wednesday else if i = 5 then .tuesday
  else if i = 6 then .monday else if i = 7 then .sunday else if i = 8 then .saturday
  else if i = 9 then .friday else if i = 10 then .thursday else if i = 11 then .wednesday
  else if i = 12 then .tuesday else .monday

/-- The unbounded index scan in `next_weekday`: first index at or past the
start whose `k_weekdays_forw` entry is the target (the fuel bounds the
scan, which in the source always hits within the doubled table). -/
def scan_forw (target : Weekday) : Nat → Nat → Nat
  | 0, j => j
  | fuel + 1, j => if k_weekdays_forw j = target then j else scan_forw target fuel (j + 1)

/-- The unbounded index scan in `prev_weekday`, over `k_weekdays_back`. -/
def scan_back (target : Weekday) : Nat → Nat → Nat
  | 0, j => j
  | fuel + 1, j => if k_weekdays_back j = target then j else scan_back target fuel (j + 1)

/-- `next_weekday`: locate today's weekday and the next target slot in the
doubled forward table, and advance by the slot distance. -/
def next_weekday (f : Fields) (wd : Weekday) : Fields :=
  let base := get_weekday f
  let i := scan_forw base 14 0
  let j := scan_forw wd 13 (i + 1)
  civil_add .day f ((j : Int) - (i : Int))

/-- `prev_weekday`: same over the backward table, retreating by the slot
distance. -/
def prev_weekday (f : Fields) (wd : Weekday) : Fields :=
  let base := get_weekday f
  let i := scan_back base 14 0
  let j := scan_back wd 13 (i + 1)
  civil_sub .day f ((j : Int) - (i : Int))

/-- Canonical ranges of normalized fields (the invariant the spec states
post-normalization). -/
def Canonical (f : Fields) : Prop :=
  1 ≤ f.m ∧ f.m ≤ 12 ∧ 1 ≤ f.d ∧ f.d ≤ days_per_month f.y f.m ∧
    0 ≤ f.hh ∧ f.hh < 24 ∧ 0 ≤ f.mm ∧ f.mm < 60 ∧ 0 ≤ f.ss ∧ f.ss < 60

instance (f : Fields) : Decidable (Canonical f) := by
  unfold Canonical
  infer_instance

/-- A fields struct is aligned at a unit when aligning is a no-op. -/
def AlignedAt (t : UnitTag) (f : Fields) : Prop := align t f = f

instance (t : UnitTag) (f : Fields) : Decidable (AlignedAt t f) := by
  unfold AlignedAt
  infer_instance

/-- The linear count a unit-aligned value represents in its own unit
(years; months; days since the epoch via `impl::ymd_ord`; hours; minutes;
seconds). Proof-side abstraction of each unit's mixed-radix value. -/
def virt (t : UnitTag) (f : Fields) : Int :=
  match t with
  | .year => f.y
  | .month => f.y * 12 + f.m
  | .day => ymd_ord f.y f.m f.d
  | .hour => ymd_ord f.y f.m f.d * 24 + f.hh
  | .minute => (ymd_ord f.y f.m f.d * 24 + f.hh) * 60 + f.mm
  | .second => ((ymd_ord f.y f.m f.d * 24 + f.hh) * 60 + f.mm) * 60 + f.ss

/-- Sum of the lengths of `k` consecutive months starting at month `m` of
year `ey`, following the wrap of `month_loop`; proof-side window measure
for the month loop's iteration bound. -/
def msum (k : Nat) (ey m : Int) : Int :=
  match k with
  | 0 => 0
  | k + 1 => days_per_month ey m + (if m + 1 > 12 then msum k (ey + 1) 1 else msum k ey (m + 1))

theorem is_leap_year_iff (y : Int) :
    is_leap_year y = true ↔ (y % 4 = 0 ∧ (¬y % 100 = 0 ∨ y % 400 = 0)) := by
  simp only [is_leap_year, cmod, cdiv, Bool.and_eq_true, Bool.or_eq_true,
    beq_iff_eq, bne_iff_ne, ne_eq]
  split_ifs with h <;> omega

/-- Era times 146097 plus day-of-era (without the day-of-year term)
recombines into floor divisions of the shifted year. -/
theorem doe_part (E : Int) :
    cdiv (if E ≥ 0 then E else E - 399) 400 * 146097 +
      ((E - cdiv (if E ≥ 0 then E else E - 399) 400 * 400) * 365 +
       cdiv (E - cdiv (if E ≥ 0 then E else E - 399) 400 * 400) 4 -
       cdiv (E - cdiv (if E ≥ 0 then E else E - 399) 400 * 400) 100) =
    365 * E + E / 4 - E / 100 + E / 400 := by
  simp only [cdiv]
  split_ifs <;> omega

theorem doy_table (m : Int) (h1 : 1 ≤ m) (h2 : m ≤ 12) :
    cdiv (153 * (m + (if m > 2 then -3 else 9)) + 2) 5 = mcount m := by
  interval_cases m <;> decide

/-- Closed form of `impl::ymd_ord` over the normalized month range:
era and year-of-era recombine into floor divisions of the shifted year. -/
theorem ymd_ord_char (y m d : Int) (h1 : 1 ≤ m) (h2 : m ≤ 12) :
    ymd_ord y m d =
      365 * (y - (if m ≤ 2 then 1 else 0)) + (y - (if m ≤ 2 then 1 else 0)) / 4
      - (y - (if m ≤ 2 then 1 else 0)) / 100 + (y - (if m ≤ 2 then 1 else 0)) / 400
      + mcount m + d - 1 - 719468 := by
  have hdoe := doe_part (if m ≤ 2 then y - 1 else y)
  have hdoy := doy_table m h1 h2
  simp only [ymd_ord]
  rw [hdoy]
  have hE : (if m ≤ 2 then y - 1 else y) = y - (if m ≤ 2 then 1 else 0) := by
    split_ifs <;> omega
  rw [hE] at hdoe ⊢
  omega

/-- The value of `impl::ymd_ord` is linear in the day argument. -/
theorem ymd_ord_add_d (y m d k : Int) :
    ymd_ord y m (d + k) = ymd_ord y m d + k := by
  simp only [ymd_ord]
  omega

/-- Stepping the year by one advances `impl::ymd_ord` by
`impl::days_per_year`. -/
theorem ymd_ord_year_step (y m d : Int) (h1 : 1 ≤ m) (h2 : m ≤ 12) :
    ymd_ord (y + 1) m d = ymd_ord y m d + days_per_year y m := by
  rw [ymd_ord_char (y + 1) m d h1 h2, ymd_ord_char y m d h1 h2]
  simp only [days_per_year, is_leap_year_iff]
  split_ifs <;> omega

/-- The cycle index of `impl::year_index` is the Euclidean residue
modulo 400 of the (February-shifted) year. -/
theorem year_index_eq (y m : Int) :
    year_index y m = (y + (if m > 2 then 1 else 0)) % 400 := by
  simp only [year_index, cmod, cdiv]
  split_ifs <;> omega

/-- Stepping the year by 100 advances `impl::ymd_ord` by
`impl::days_per_century` at the year's cycle index. -/
theorem ymd_ord_century_step (y m d : Int) (h1 : 1 ≤ m) (h2 : m ≤ 12) :
    ymd_ord (y + 100) m d = ymd_ord y m d + days_per_century (year_index y m) := by
  rw [ymd_ord_char (y + 100) m d h1 h2, ymd_ord_char y m d h1 h2, year_index_eq]
  simp only [days_per_century]
  split_ifs <;> omega

/-- Stepping the year by 4 advances `impl::ymd_ord` by
`impl::days_per_4years` at the year's cycle index. -/
theorem ymd_ord_4years_step (y m d : Int) (h1 : 1 ≤ m) (h2 : m ≤ 12) :
    ymd_ord (y + 4) m d = ymd_ord y m d + days_per_4years (year_index y m) := by
  rw [ymd_ord_char (y + 4) m d h1 h2, ymd_ord_char y m d h1 h2, year_index_eq]
  simp only [days_per_4years, cmod, cdiv]
  split_ifs <;> omega

/-- Stepping a non-December month by one advances `impl::ymd_ord` by
`impl::days_per_month`. -/
theorem ymd_ord_month_step (y m d : Int) (h1 : 1 ≤ m) (h2 : m ≤ 11) :
    ymd_ord y (m + 1) d = ymd_ord y m d + days_per_month y m := by
  rw [ymd_ord_char y (m + 1) d (by omega) (by omega), ymd_ord_char y m d h1 (by omega)]
  interval_cases m <;>
    simp only [days_per_month, k_days_per_month, mcount, is_leap_year_iff] <;>
    norm_num <;> omega

/-- Stepping December to the next January advances `impl::ymd_ord` by
`impl::days_per_month` of December. -/
theorem ymd_ord_month_wrap (y d : Int) :
    ymd_ord (y + 1) 1 d = ymd_ord y 12 d + days_per_month y 12 := by
  rw [ymd_ord_char (y + 1) 1 d (by omega) (by omega), ymd_ord_char y 12 d (by omega) (by omega)]
  simp only [days_per_month, k_days_per_month, mcount, is_leap_year_iff]
  norm_num
  omega

/-- One 400-year cycle is exactly 146097 days in `impl::ymd_ord`. -/
theorem ymd_ord_400 (y m d : Int) (h1 : 1 ≤ m) (h2 : m ≤ 12) :
    ymd_ord (y + 400) m d = ymd_ord y m d + 146097 := by
  rw [ymd_ord_char (y + 400) m d h1 h2, ymd_ord_char y m d h1 h2]
  omega

/-- Any whole number of 400-year cycles shifts `impl::ymd_ord` by
146097 days each. -/
theorem ymd_ord_400k (y m d k : Int) (h1 : 1 ≤ m) (h2 : m ≤ 12) :
    ymd_ord (y + 400 * k) m d = ymd_ord y m d + 146097 * k := by
  induction k using Int.induction_on with
  | hz => simp
  | hp i ih =>
      have h := ymd_ord_400 (y + 400 * i) m d h1 h2
      have : y + 400 * ((i : Int) + 1) = y + 400 * i + 400 := by ring
      rw [this, h, ih]
      ring
  | hn i ih =>
      have h := ymd_ord_400 (y + 400 * (-(i : Int) - 1)) m d h1 h2
      have : y + 400 * (-(i : Int)) = y + 400 * (-(i : Int) - 1) + 400 := by ring
      rw [this] at ih
      rw [ih] at h
      omega

/-- Leap-year status only depends on the year modulo 400. -/
theorem is_leap_year_congr (a k : Int) :
    is_leap_year (a + 400 * k) = is_leap_year a := by
  rw [show ∀ x y : Bool, x = y ↔ ((x = true) ↔ (y = true)) from by decide]
  rw [is_leap_year_iff, is_leap_year_iff]
  omega

/-- Month lengths only depend on the year modulo 400. -/
theorem days_per_month_congr (a k m : Int) :
    days_per_month (a + 400 * k) m = days_per_month a m := by
  simp only [days_per_month, is_leap_year_congr]

/-- Every normalized month has between 28 and 31 days. -/
theorem days_per_month_bounds (y m : Int) (h1 : 1 ≤ m) (h2 : m ≤ 12) :
    28 ≤ days_per_month y m ∧ days_per_month y m ≤ 31 := by
  simp only [days_per_month, k_days_per_month]
  split_ifs <;> omega

/-- A year is 365 or 366 days. -/
theorem days_per_year_bounds (y m : Int) :
    365 ≤ days_per_year y m ∧ days_per_year y m ≤ 366 := by
  simp only [days_per_year]
  split_ifs <;> omega

/-- A century at any cycle index is 36524 or 36525 days. -/
theorem days_per_century_bounds (yi : Int) :
    36524 ≤ days_per_century yi ∧ days_per_century yi ≤ 36525 := by
  simp only [days_per_century]
  split_ifs <;> omega

/-- A 4-year block at any cycle index is 1460 or 1461 days. -/
theorem days_per_4years_bounds (yi : Int) :
    1460 ≤ days_per_4years yi ∧ days_per_4years yi ≤ 1461 := by
  simp only [days_per_4years]
  split_ifs <;> omega

/-- Within a year, no canonical date is past December 31 in
`impl::ymd_ord` order. -/
theorem ymd_ord_le_year_end (y m d : Int)
    (hm : 1 ≤ m) (hmb : m ≤ 12) (hd : 1 ≤ d) (hdb : d ≤ days_per_month y m) :
    ymd_ord y m d ≤ ymd_ord y 12 31 := by
  rw [ymd_ord_char y m d hm hmb, ymd_ord_char y 12 31 (by omega) (by omega)]
  simp only [days_per_month, k_days_per_month, is_leap_year_iff] at hdb
  interval_cases m <;> norm_num [mcount] at hdb ⊢ <;> omega

/-- Within a year, no canonical date is before January 1 in
`impl::ymd_ord` order. -/
theorem ymd_ord_ge_year_start (y m d : Int)
    (hm : 1 ≤ m) (hmb : m ≤ 12) (hd : 1 ≤ d) :
    ymd_ord y 1 1 ≤ ymd_ord y m d := by
  rw [ymd_ord_char y m d hm hmb, ymd_ord_char y 1 1 (by omega) (by omega)]
  interval_cases m <;> norm_num [mcount] <;> omega

/-- December 31 of an earlier year precedes January 1 of a later year in
`impl::ymd_ord` order. -/
theorem ymd_ord_year_lt (y1 y2 : Int) (h : y1 < y2) :
    ymd_ord y1 12 31 < ymd_ord y2 1 1 := by
  rw [ymd_ord_char y1 12 31 (by omega) (by omega), ymd_ord_char y2 1 1 (by omega) (by omega)]
  norm_num [mcount]
  omega

/-- `impl::ymd_ord` is strictly monotone with respect to the lexicographic
order on canonical Y/M/D triples. -/
theorem ymd_ord_strict_mono (y1 m1 d1 y2 m2 d2 : Int)
    (hm1 : 1 ≤ m1) (hm1b : m1 ≤ 12) (hd1 : 1 ≤ d1) (hd1b : d1 ≤ days_per_month y1 m1)
    (hm2 : 1 ≤ m2) (hm2b : m2 ≤ 12) (hd2 : 1 ≤ d2) (hd2b : d2 ≤ days_per_month y2 m2)
    (hlt : y1 < y2 ∨ (y1 = y2 ∧ (m1 < m2 ∨ (m1 = m2 ∧ d1 < d2)))) :
    ymd_ord y1 m1 d1 < ymd_ord y2 m2 d2 := by
  rcases hlt with hy | ⟨hy, hm | ⟨hm, hd⟩⟩
  · calc ymd_ord y1 m1 d1 ≤ ymd_ord y1 12 31 :=
          ymd_ord_le_year_end y1 m1 d1 hm1 hm1b hd1 hd1b
      _ < ymd_ord y2 1 1 := ymd_ord_year_lt y1 y2 hy
      _ ≤ ymd_ord y2 m2 d2 := ymd_ord_ge_year_start y2 m2 d2 hm2 hm2b hd2
  · subst hy
    rw [ymd_ord_char y1 m1 d1 hm1 hm1b, ymd_ord_char y1 m2 d2 hm2 hm2b]
    simp only [days_per_month, k_days_per_month, is_leap_year_iff] at hd1b
    interval_cases m1 <;> interval_cases m2 <;>
      norm_num [mcount] at hd1b ⊢ <;> omega
  · subst hy; subst hm
    rw [ymd_ord_char y1 m1 d1 hm1 hm1b, ymd_ord_char y1 m1 d2 hm1 hm1b]
    omega

/-- On canonical triples, equal `impl::ymd_ord` values force equal
dates. -/
theorem ymd_ord_inj (y1 m1 d1 y2 m2 d2 : Int)
    (hm1 : 1 ≤ m1) (hm1b : m1 ≤ 12) (hd1 : 1 ≤ d1) (hd1b : d1 ≤ days_per_month y1 m1)
    (hm2 : 1 ≤ m2) (hm2b : m2 ≤ 12) (hd2 : 1 ≤ d2) (hd2b : d2 ≤ days_per_month y2 m2)
    (heq : ymd_ord y1 m1 d1 = ymd_ord y2 m2 d2) :
    y1 = y2 ∧ m1 = m2 ∧ d1 = d2 := by
  by_contra hne
  have htri : (y1 < y2 ∨ (y1 = y2 ∧ (m1 < m2 ∨ (m1 = m2 ∧ d1 < d2)))) ∨
      (y2 < y1 ∨ (y2 = y1 ∧ (m2 < m1 ∨ (m2 = m1 ∧ d2 < d1)))) := by
    omega
  rcases htri with h | h
  · have := ymd_ord_strict_mono y1 m1 d1 y2 m2 d2 hm1 hm1b hd1 hd1b hm2 hm2b hd2 hd2b h
    omega
  · have := ymd_ord_strict_mono y2 m2 d2 y1 m1 d1 hm2 hm2b hd2 hd2b hm1 hm1b hd1 hd1b h
    omega

/-- Division facts for the constant 400 in truncated form. -/
theorem cdm_400 (a : Int) :
    400 * cdiv a 400 + cmod a 400 = a ∧ -400 < cmod a 400 ∧ cmod a 400 < 400 ∧
      (0 ≤ a → 0 ≤ cmod a 400) ∧ (a < 0 → cmod a 400 ≤ 0) := by
  unfold cmod cdiv
  split_ifs <;> omega

/-- Division facts for the constant 146097 in truncated form. -/
theorem cdm_146097 (a : Int) :
    146097 * cdiv a 146097 + cmod a 146097 = a ∧ -146097 < cmod a 146097 ∧
      cmod a 146097 < 146097 ∧ (0 ≤ a → 0 ≤ cmod a 146097) ∧
      (a < 0 → cmod a 146097 ≤ 0) := by
  unfold cmod cdiv
  split_ifs <;> omega

/-- The century loop preserves the day ordinal, keeps the day count
positive, reaches its exit condition with the fuel provided, and keeps the
cycle index consistent with the year accumulator. -/
theorem century_loop_spec (m : Int) (hm1 : 1 ≤ m) (hm2 : m ≤ 12) :
    ∀ (fuel : Nat) (ey yi d : Int), yi = year_index ey m → 0 < d →
      d ≤ 36524 * (fuel : Int) →
      ymd_ord (century_loop fuel ey yi d).1 m (century_loop fuel ey yi d).2.2 =
          ymd_ord ey m d ∧
        0 < (century_loop fuel ey yi d).2.2 ∧
        (century_loop fuel ey yi d).2.2 ≤ days_per_century (century_loop fuel ey yi d).2.1 ∧
        (century_loop fuel ey yi d).2.1 = year_index (century_loop fuel ey yi d).1 m := by
  intro fuel
  induction fuel with
  | zero =>
      intro ey yi d hyi hd hfuel
      exfalso
      omega
  | succ fuel ih =>
      intro ey yi d hyi hd hfuel
      subst hyi
      simp only [century_loop]
      split_ifs with hexit hge
      · exact ⟨rfl, hd, hexit, rfl⟩
      · have hb := days_per_century_bounds (year_index ey m)
        have hwrap : year_index ey m + 100 - 400 = year_index (ey + 100) m := by
          rw [year_index_eq] at hge
          rw [year_index_eq, year_index_eq]
          omega
        have hrec := ih (ey + 100) (year_index ey m + 100 - 400)
          (d - days_per_century (year_index ey m)) hwrap (by omega) (by omega)
        refine ⟨?_, hrec.2.1, hrec.2.2.1, hrec.2.2.2⟩
        rw [hrec.1]
        have hstep := ymd_ord_century_step ey m (d - days_per_century (year_index ey m)) hm1 hm2
        have hlin := ymd_ord_add_d ey m d (-(days_per_century (year_index ey m)))
        rw [show d + -(days_per_century (year_index ey m)) =
            d - days_per_century (year_index ey m) from by ring] at hlin
        omega
      · have hb := days_per_century_bounds (year_index ey m)
        have hwrap : year_index ey m + 100 = year_index (ey + 100) m := by
          rw [year_index_eq] at hge
          rw [year_index_eq, year_index_eq]
          omega
        have hrec := ih (ey + 100) (year_index ey m + 100)
          (d - days_per_century (year_index ey m)) hwrap (by omega) (by omega)
        refine ⟨?_, hrec.2.1, hrec.2.2.1, hrec.2.2.2⟩
        rw [hrec.1]
        have hstep := ymd_ord_century_step ey m (d - days_per_century (year_index ey m)) hm1 hm2
        have hlin := ymd_ord_add_d ey m d (-(days_per_century (year_index ey m)))
        rw [show d + -(days_per_century (year_index ey m)) =
            d - days_per_century (year_index ey m) from by ring] at hlin
        omega

/-- Same contract for the 4-year-block loop. -/
theorem fouryears_loop_spec (m : Int) (hm1 : 1 ≤ m) (hm2 : m ≤ 12) :
    ∀ (fuel : Nat) (ey yi d : Int), yi = year_index ey m → 0 < d →
      d ≤ 1460 * (fuel : Int) →
      ymd_ord (fouryears_loop fuel ey yi d).1 m (fouryears_loop fuel ey yi d).2.2 =
          ymd_ord ey m d ∧
        0 < (fouryears_loop fuel ey yi d).2.2 ∧
        (fouryears_loop fuel ey yi d).2.2 ≤
          days_per_4years (fouryears_loop fuel ey yi d).2.1 ∧
        (fouryears_loop fuel ey yi d).2.1 = year_index (fouryears_loop fuel ey yi d).1 m := by
  intro fuel
  induction fuel with
  | zero =>
      intro ey yi d hyi hd hfuel
      exfalso
      omega
  | succ fuel ih =>
      intro ey yi d hyi hd hfuel
      subst hyi
      simp only [fouryears_loop]
      split_ifs with hexit hge
      · exact ⟨rfl, hd, hexit, rfl⟩
      · have hb := days_per_4years_bounds (year_index ey m)
        have hwrap : year_index ey m + 4 - 400 = year_index (ey + 4) m := by
          rw [year_index_eq] at hge
          rw [year_index_eq, year_index_eq]
          omega
        have hrec := ih (ey + 4) (year_index ey m + 4 - 400)
          (d - days_per_4years (year_index ey m)) hwrap (by omega) (by omega)
        refine ⟨?_, hrec.2.1, hrec.2.2.1, hrec.2.2.2⟩
        rw [hrec.1]
        have hstep := ymd_ord_4years_step ey m (d - days_per_4years (year_index ey m)) hm1 hm2
        have hlin := ymd_ord_add_d ey m d (-(days_per_4years (year_index ey m)))
        rw [show d + -(days_per_4years (year_index ey m)) =
            d - days_per_4years (year_index ey m) from by ring] at hlin
        omega
      · have hb := days_per_4years_bounds (year_index ey m)
        have hwrap : year_index ey m + 4 = year_index (ey + 4) m := by
          rw [year_index_eq] at hge
          rw [year_index_eq, year_index_eq]
          omega
        have hrec := ih (ey + 4) (year_index ey m + 4)
          (d - days_per_4years (year_index ey m)) hwrap (by omega) (by omega)
        refine ⟨?_, hrec.2.1, hrec.2.2.1, hrec.2.2.2⟩
        rw [hrec.1]
        have hstep := ymd_ord_4years_step ey m (d - days_per_4years (year_index ey m)) hm1 hm2
        have hlin := ymd_ord_add_d ey m d (-(days_per_4years (year_index ey m)))
        rw [show d + -(days_per_4years (year_index ey m)) =
            d - days_per_4years (year_index ey m) from by ring] at hlin
        omega

/-- Same contract for the single-year loop. -/
theorem year_loop_spec (m : Int) (hm1 : 1 ≤ m) (hm2 : m ≤ 12) :
    ∀ (fuel : Nat) (ey d : Int), 0 < d → d ≤ 365 * (fuel : Int) →
      ymd_ord (year_loop fuel ey m d).1 m (year_loop fuel ey m d).2 = ymd_ord ey m d ∧
        0 < (year_loop fuel ey m d).2 ∧
        (year_loop fuel ey m d).2 ≤ days_per_year (year_loop fuel ey m d).1 m := by
  intro fuel
  induction fuel with
  | zero =>
      intro ey d hd hfuel
      exfalso
      omega
  | succ fuel ih =>
      intro ey d hd hfuel
      simp only [year_loop]
      split_ifs with hexit
      · exact ⟨rfl, hd, hexit⟩
      · have hb := days_per_year_bounds ey m
        have hrec := ih (ey + 1) (d - days_per_year ey m) (by omega) (by omega)
        refine ⟨?_, hrec.2.1, hrec.2.2⟩
        rw [hrec.1]
        have hstep := ymd_ord_year_step ey m (d - days_per_year ey m) hm1 hm2
        have hlin := ymd_ord_add_d ey m d (-(days_per_year ey m))
        rw [show d + -(days_per_year ey m) = d - days_per_year ey m from by ring] at hlin
        omega

/-- Contract for the month loop: ordinal preserved, month kept in [1,12],
day count positive and (with the fuel provided) within the final month. -/
theorem month_loop_spec :
    ∀ (fuel : Nat) (ey m d : Int), 1 ≤ m → m ≤ 12 → 0 < d → d ≤ (fuel : Int) →
      ymd_ord (month_loop fuel ey m d).1 (month_loop fuel ey m d).2.1
          (month_loop fuel ey m d).2.2 = ymd_ord ey m d ∧
        0 < (month_loop fuel ey m d).2.2 ∧
        (month_loop fuel ey m d).2.2 ≤
          days_per_month (month_loop fuel ey m d).1 (month_loop fuel ey m d).2.1 ∧
        1 ≤ (month_loop fuel ey m d).2.1 ∧ (month_loop fuel ey m d).2.1 ≤ 12 := by
  intro fuel
  induction fuel with
  | zero =>
      intro ey m d hm1 hm2 hd hfuel
      exfalso
      omega
  | succ fuel ih =>
      intro ey m d hm1 hm2 hd hfuel
      simp only [month_loop]
      split_ifs with hexit hwrap
      · exact ⟨rfl, hd, hexit, hm1, hm2⟩
      · have hm12 : m = 12 := by omega
        subst hm12
        have hb := days_per_month_bounds ey 12 (by omega) (by omega)
        have hrec := ih (ey + 1) 1 (d - days_per_month ey 12) (by omega) (by omega)
            (by omega) (by omega)
        refine ⟨?_, hrec.2.1, hrec.2.2.1, hrec.2.2.2⟩
        rw [hrec.1]
        have hstep := ymd_ord_month_wrap ey (d - days_per_month ey 12)
        have hlin := ymd_ord_add_d ey 12 d (-(days_per_month ey 12))
        rw [show d + -(days_per_month ey 12) = d - days_per_month ey 12 from by ring] at hlin
        omega
      · have hb := days_per_month_bounds ey m hm1 hm2
        have hrec := ih ey (m + 1) (d - days_per_month ey m) (by omega) (by omega)
            (by omega) (by omega)
        refine ⟨?_, hrec.2.1, hrec.2.2.1, hrec.2.2.2⟩
        rw [hrec.1]
        have hstep := ymd_ord_month_step ey m (d - days_per_month ey m) hm1 (by omega)
        have hlin := ymd_ord_add_d ey m d (-(days_per_month ey m))
        rw [show d + -(days_per_month ey m) = d - days_per_month ey m from by ring] at hlin
        omega

/-- The loop section of `n_day` preserves the day ordinal and produces a
canonical month/day pair. -/
theorem day_loops_spec (m : Int) (hm1 : 1 ≤ m) (hm2 : m ≤ 12) (ey d : Int) (hd : 0 < d) :
    ymd_ord (day_loops ey m d).1 (day_loops ey m d).2.1 (day_loops ey m d).2.2 =
        ymd_ord ey m d ∧
      0 < (day_loops ey m d).2.2 ∧
      (day_loops ey m d).2.2 ≤
        days_per_month (day_loops ey m d).1 (day_loops ey m d).2.1 ∧
      1 ≤ (day_loops ey m d).2.1 ∧ (day_loops ey m d).2.1 ≤ 12 := by
  simp only [day_loops]
  by_cases h365 : d > 365
  · rw [if_pos h365]
    set q1 := century_loop (d.toNat + 1) ey (year_index ey m) d with hq1
    set q2 := fouryears_loop (q1.2.2.toNat + 1) q1.1 q1.2.1 q1.2.2 with hq2
    set q3 := year_loop (q2.2.2.toNat + 1) q2.1 m q2.2.2 with hq3
    obtain ⟨hc1, hc2, hc3, hc4⟩ := century_loop_spec m hm1 hm2 (d.toNat + 1) ey
      (year_index ey m) d rfl hd (by omega)
    rw [← hq1] at hc1 hc2 hc3 hc4
    obtain ⟨hf1, hf2, hf3, hf4⟩ := fouryears_loop_spec m hm1 hm2 (q1.2.2.toNat + 1)
      q1.1 q1.2.1 q1.2.2 hc4 hc2 (by have := days_per_century_bounds q1.2.1; omega)
    rw [← hq2] at hf1 hf2 hf3 hf4
    obtain ⟨hy1, hy2, hy3⟩ := year_loop_spec m hm1 hm2 (q2.2.2.toNat + 1)
      q2.1 q2.2.2 hf2 (by have := days_per_4years_bounds q2.2.1; omega)
    rw [← hq3] at hy1 hy2 hy3
    by_cases h28 : q3.2 > 28
    · rw [if_pos h28]
      obtain ⟨ha1, ha2, ha3, ha4, ha5⟩ := month_loop_spec (q3.2.toNat + 1) q3.1 m q3.2
        hm1 hm2 hy2 (by omega)
      refine ⟨?_, ha2, ha3, ha4, ha5⟩
      rw [ha1, hy1, hf1, hc1]
    · rw [if_neg h28]
      have hdpm := days_per_month_bounds q3.1 m hm1 hm2
      refine ⟨?_, hy2, ?_, hm1, hm2⟩
      · dsimp only
        rw [hy1, hf1, hc1]
      · dsimp only
        omega
  · rw [if_neg h365]
    by_cases h28 : d > 28
    · rw [if_pos h28]
      obtain ⟨ha1, ha2, ha3, ha4, ha5⟩ := month_loop_spec (d.toNat + 1) ey m d
        hm1 hm2 hd (by omega)
      exact ⟨ha1, ha2, ha3, ha4, ha5⟩
    · rw [if_neg h28]
      have hdpm := days_per_month_bounds ey m hm1 hm2
      exact ⟨rfl, hd, by dsimp only; omega, hm1, hm2⟩

/-- Shifting the cycle-reduced year by whole 400-year cycles while
deducting the matching days from the combined count preserves the
ordinal target. -/
theorem prep_shift (y m d cd K D : Int) (hm1 : 1 ≤ m) (hm2 : m ≤ 12)
    (hD : D = d + cd - 146097 * K) :
    ymd_ord (cmod y 400 + 400 * K) m D = ymd_ord (cmod y 400) m d + cd := by
  have h := ymd_ord_400k (cmod y 400) m D K hm1 hm2
  have hl := ymd_ord_add_d (cmod y 400) m d (D - d)
  rw [show d + (D - d) = D from by ring] at hl
  omega

/-- The same in the borrow-one-year special case of the pre-loop
reduction. -/
theorem prep_shift_special (y m d cd K D : Int) (hm1 : 1 ≤ m) (hm2 : m ≤ 12)
    (hD : D = d + cd - 146097 * K) :
    ymd_ord (cmod y 400 + 400 * K - 1) m
        (D + days_per_year (cmod y 400 + 400 * K - 1) m) =
      ymd_ord (cmod y 400) m d + cd := by
  have hs := ymd_ord_year_step (cmod y 400 + 400 * K - 1) m D hm1 hm2
  rw [show cmod y 400 + 400 * K - 1 + 1 = cmod y 400 + 400 * K from by ring] at hs
  have ha := ymd_ord_add_d (cmod y 400 + 400 * K - 1) m D
    (days_per_year (cmod y 400 + 400 * K - 1) m)
  have hb := prep_shift y m d cd K D hm1 hm2 hD
  omega

/-- The pre-loop reduction of `n_day` advances the ordinal of the
cycle-reduced year by exactly the combined day count, leaving a day value
in (0, 146097]. -/
theorem n_day_prep_spec (y m d cd : Int) (hm1 : 1 ≤ m) (hm2 : m ≤ 12) :
    ymd_ord (n_day_prep y m d cd).1 m (n_day_prep y m d cd).2 =
        ymd_ord (cmod y 400) m d + cd ∧
      0 < (n_day_prep y m d cd).2 ∧ (n_day_prep y m d cd).2 ≤ 146097 := by
  have hcd := cdm_146097 cd
  have hdd := cdm_146097 d
  simp only [n_day_prep]
  split_ifs with h1 h2 h3 h4 h5 h6 h7 <;> dsimp only at *
  · rw [show cmod y 400 + cdiv cd 146097 * 400 - 400 + cdiv d 146097 * 400 + 400 =
        cmod y 400 + 400 * (cdiv cd 146097 + cdiv d 146097) from by ring]
    exact ⟨prep_shift y m d cd (cdiv cd 146097 + cdiv d 146097)
      (cmod d 146097 + (cmod cd 146097 + 146097) - 146097) hm1 hm2 (by omega),
      by omega, by omega⟩
  · rw [show cmod y 400 + cdiv cd 146097 * 400 - 400 + cdiv d 146097 * 400 =
        cmod y 400 + 400 * (cdiv cd 146097 + cdiv d 146097 - 1) from by ring]
    exact ⟨prep_shift y m d cd (cdiv cd 146097 + cdiv d 146097 - 1)
      (cmod d 146097 + (cmod cd 146097 + 146097)) hm1 hm2 (by omega),
      by omega, by omega⟩
  · rw [show cmod y 400 + cdiv cd 146097 * 400 - 400 + cdiv d 146097 * 400 - 1 =
        cmod y 400 + 400 * (cdiv cd 146097 + cdiv d 146097 - 1) - 1 from by ring]
    have hdpy := days_per_year_bounds
      (cmod y 400 + 400 * (cdiv cd 146097 + cdiv d 146097 - 1) - 1) m
    exact ⟨prep_shift_special y m d cd (cdiv cd 146097 + cdiv d 146097 - 1)
      (cmod d 146097 + (cmod cd 146097 + 146097)) hm1 hm2 (by omega),
      by omega, by omega⟩
  · rw [show cmod y 400 + cdiv cd 146097 * 400 - 400 + cdiv d 146097 * 400 - 400 =
        cmod y 400 + 400 * (cdiv cd 146097 + cdiv d 146097 - 2) from by ring]
    exact ⟨prep_shift y m d cd (cdiv cd 146097 + cdiv d 146097 - 2)
      (cmod d 146097 + (cmod cd 146097 + 146097) + 146097) hm1 hm2 (by omega),
      by omega, by omega⟩
  · rw [show cmod y 400 + cdiv cd 146097 * 400 + cdiv d 146097 * 400 + 400 =
        cmod y 400 + 400 * (cdiv cd 146097 + cdiv d 146097 + 1) from by ring]
    exact ⟨prep_shift y m d cd (cdiv cd 146097 + cdiv d 146097 + 1)
      (cmod d 146097 + cmod cd 146097 - 146097) hm1 hm2 (by omega),
      by omega, by omega⟩
  · rw [show cmod y 400 + cdiv cd 146097 * 400 + cdiv d 146097 * 400 =
        cmod y 400 + 400 * (cdiv cd 146097 + cdiv d 146097) from by ring]
    exact ⟨prep_shift y m d cd (cdiv cd 146097 + cdiv d 146097)
      (cmod d 146097 + cmod cd 146097) hm1 hm2 (by omega),
      by omega, by omega⟩
  · rw [show cmod y 400 + cdiv cd 146097 * 400 + cdiv d 146097 * 400 - 1 =
        cmod y 400 + 400 * (cdiv cd 146097 + cdiv d 146097) - 1 from by ring]
    have hdpy := days_per_year_bounds
      (cmod y 400 + 400 * (cdiv cd 146097 + cdiv d 146097) - 1) m
    exact ⟨prep_shift_special y m d cd (cdiv cd 146097 + cdiv d 146097)
      (cmod d 146097 + cmod cd 146097) hm1 hm2 (by omega),
      by omega, by omega⟩
  · rw [show cmod y 400 + cdiv cd 146097 * 400 + cdiv d 146097 * 400 - 400 =
        cmod y 400 + 400 * (cdiv cd 146097 + cdiv d 146097 - 1) from by ring]
    exact ⟨prep_shift y m d cd (cdiv cd 146097 + cdiv d 146097 - 1)
      (cmod d 146097 + cmod cd 146097 + 146097) hm1 hm2 (by omega),
      by omega, by omega⟩

/-- `impl::n_day` passes the time-of-day fields through unchanged, yields a
canonical month and day, and advances the day ordinal by exactly the day
carry. -/
theorem n_day_spec (y m d cd hh mm ss : Int) (hm1 : 1 ≤ m) (hm2 : m ≤ 12) :
    (n_day y m d cd hh mm ss).hh = hh ∧ (n_day y m d cd hh mm ss).mm = mm ∧
      (n_day y m d cd hh mm ss).ss = ss ∧
      1 ≤ (n_day y m d cd hh mm ss).m ∧ (n_day y m d cd hh mm ss).m ≤ 12 ∧
      1 ≤ (n_day y m d cd hh mm ss).d ∧
      (n_day y m d cd hh mm ss).d ≤
        days_per_month (n_day y m d cd hh mm ss).y (n_day y m d cd hh mm ss).m ∧
      ymd_ord (n_day y m d cd hh mm ss).y (n_day y m d cd hh mm ss).m
          (n_day y m d cd hh mm ss).d = ymd_ord y m d + cd := by
  obtain ⟨hp1, hp2, hp3⟩ := n_day_prep_spec y m d cd hm1 hm2
  obtain ⟨hl1, hl2, hl3, hl4, hl5⟩ := day_loops_spec m hm1 hm2
    (n_day_prep y m d cd).1 (n_day_prep y m d cd).2 hp2
  have hy4 := cdm_400 y
  have hyid : y + ((day_loops (n_day_prep y m d cd).1 m (n_day_prep y m d cd).2).1 -
      cmod y 400) =
      (day_loops (n_day_prep y m d cd).1 m (n_day_prep y m d cd).2).1 +
        400 * cdiv y 400 := by
    omega
  simp only [n_day]
  refine ⟨trivial, trivial, trivial, hl4, hl5, by omega, ?_, ?_⟩
  · rw [hyid, days_per_month_congr]
    exact hl3
  · rw [hyid]
    have e := ymd_ord_400k
      (day_loops (n_day_prep y m d cd).1 m (n_day_prep y m d cd).2).1
      (day_loops (n_day_prep y m d cd).1 m (n_day_prep y m d cd).2).2.1
      (day_loops (n_day_prep y m d cd).1 m (n_day_prep y m d cd).2).2.2
      (cdiv y 400) hl4 hl5
    have e2 := ymd_ord_400k (cmod y 400) m d (cdiv y 400) hm1 hm2
    rw [show cmod y 400 + 400 * cdiv y 400 = y from by omega] at e2
    omega

/-- Division facts for the constant 12 in truncated form. -/
theorem cdm_12 (a : Int) :
    12 * cdiv a 12 + cmod a 12 = a ∧ -12 < cmod a 12 ∧ cmod a 12 < 12 ∧
      (0 ≤ a → 0 ≤ cmod a 12) ∧ (a < 0 → cmod a 12 ≤ 0) := by
  unfold cmod cdiv
  split_ifs <;> omega

/-- Division facts for the constant 24 in truncated form. -/
theorem cdm_24 (a : Int) :
    24 * cdiv a 24 + cmod a 24 = a ∧ -24 < cmod a 24 ∧ cmod a 24 < 24 ∧
      (0 ≤ a → 0 ≤ cmod a 24) ∧ (a < 0 → cmod a 24 ≤ 0) := by
  unfold cmod cdiv
  split_ifs <;> omega

/-- Division facts for the constant 60 in truncated form. -/
theorem cdm_60 (a : Int) :
    60 * cdiv a 60 + cmod a 60 = a ∧ -60 < cmod a 60 ∧ cmod a 60 < 60 ∧
      (0 ≤ a → 0 ≤ cmod a 60) ∧ (a < 0 → cmod a 60 ≤ 0) := by
  unfold cmod cdiv
  split_ifs <;> omega

/-- Alignment at the year unit pins every finer field. -/
theorem alignedAt_year_iff (f : Fields) :
    AlignedAt .year f ↔ f.m = 1 ∧ f.d = 1 ∧ f.hh = 0 ∧ f.mm = 0 ∧ f.ss = 0 := by
  cases f
  simp only [AlignedAt, align, Fields.mk.injEq, true_and]
  omega

/-- Alignment at the month unit pins the day and the time of day. -/
theorem alignedAt_month_iff (f : Fields) :
    AlignedAt .month f ↔ f.d = 1 ∧ f.hh = 0 ∧ f.mm = 0 ∧ f.ss = 0 := by
  cases f
  simp only [AlignedAt, align, Fields.mk.injEq, true_and]
  omega

/-- Alignment at the day unit pins the time of day. -/
theorem alignedAt_day_iff (f : Fields) :
    AlignedAt .day f ↔ f.hh = 0 ∧ f.mm = 0 ∧ f.ss = 0 := by
  cases f
  simp only [AlignedAt, align, Fields.mk.injEq, true_and]
  omega

/-- Alignment at the hour unit pins minutes and seconds. -/
theorem alignedAt_hour_iff (f : Fields) :
    AlignedAt .hour f ↔ f.mm = 0 ∧ f.ss = 0 := by
  cases f
  simp only [AlignedAt, align, Fields.mk.injEq, true_and]
  omega

/-- Alignment at the minute unit pins seconds. -/
theorem alignedAt_minute_iff (f : Fields) :
    AlignedAt .minute f ↔ f.ss = 0 := by
  cases f
  simp only [AlignedAt, align, Fields.mk.injEq, true_and]
  omega

/-- Everything is aligned at the second unit. -/
theorem alignedAt_second (f : Fields) : AlignedAt .second f := rfl

/-- On an already-normalized month, `impl::n_mon` reduces to
`impl::n_day`. -/
theorem n_mon_id (y m d cd hh mm ss : Int) (hm1 : 1 ≤ m) (hm2 : m ≤ 12) :
    n_mon y m d cd hh mm ss = n_day y m d cd hh mm ss := by
  by_cases h12 : m = 12
  · subst h12
    simp [n_mon]
  · have e1 : cdiv m 12 = 0 := by
      simp only [cdiv, if_pos (show (0:Int) ≤ m by omega)]
      omega
    have e2 : cmod m 12 = m := by
      simp only [cmod, e1]
      ring
    simp only [n_mon, if_pos h12, e1, e2, add_zero, if_neg (show ¬m ≤ 0 by omega)]

/-- `impl::n_mon` rewrites an arbitrary month into a normalized year/month
pair with the same total month count and hands it to `n_day`. -/
theorem n_mon_spec (y m d cd hh mm ss : Int) :
    ∃ y1 m1 : Int, 1 ≤ m1 ∧ m1 ≤ 12 ∧ y1 * 12 + m1 = y * 12 + m ∧
      n_mon y m d cd hh mm ss = n_day y1 m1 d cd hh mm ss := by
  by_cases h12 : m = 12
  · subst h12
    exact ⟨y, 12, by omega, by omega, by omega, by simp [n_mon]⟩
  · have h := cdm_12 m
    by_cases hz : cmod m 12 ≤ 0
    · refine ⟨y + cdiv m 12 - 1, cmod m 12 + 12, by omega, by omega, by omega, ?_⟩
      simp only [n_mon, if_pos h12, if_pos hz]
    · refine ⟨y + cdiv m 12, cmod m 12, by omega, by omega, by omega, ?_⟩
      simp only [n_mon, if_pos h12, if_neg hz]

/-- `impl::n_mon` yields canonical fields whenever the time of day is
already in range. -/
theorem n_mon_canonical (y m d cd hh mm ss : Int)
    (hhh : 0 ≤ hh ∧ hh < 24) (hmm : 0 ≤ mm ∧ mm < 60) (hss : 0 ≤ ss ∧ ss < 60) :
    Canonical (n_mon y m d cd hh mm ss) := by
  obtain ⟨y1, m1, ha, hb, hsum, heq⟩ := n_mon_spec y m d cd hh mm ss
  rw [heq]
  obtain ⟨a1, a2, a3, a4, a5, a6, a7, a8⟩ := n_day_spec y1 m1 d cd hh mm ss ha hb
  exact ⟨a4, a5, a6, a7, by omega, by omega, by omega, by omega, by omega, by omega⟩

/-- `impl::n_hour` yields canonical fields whenever minutes and seconds are
already in range. -/
theorem n_hour_canonical (y m d cd hh mm ss : Int)
    (hmm : 0 ≤ mm ∧ mm < 60) (hss : 0 ≤ ss ∧ ss < 60) :
    Canonical (n_hour y m d cd hh mm ss) := by
  have h24 := cdm_24 hh
  simp only [n_hour]
  split_ifs with h
  · exact n_mon_canonical y m d (cd + cdiv hh 24 - 1) (cmod hh 24 + 24) mm ss
      (by omega) hmm hss
  · exact n_mon_canonical y m d (cd + cdiv hh 24) (cmod hh 24) mm ss (by omega) hmm hss

/-- `impl::n_min` yields canonical fields whenever seconds are already in
range. -/
theorem n_min_canonical (y m d hh ch mm ss : Int) (hss : 0 ≤ ss ∧ ss < 60) :
    Canonical (n_min y m d hh ch mm ss) := by
  have h60 := cdm_60 mm
  simp only [n_min]
  split_ifs with h
  · exact n_hour_canonical y m d (cdiv hh 24 + cdiv (ch + cdiv mm 60 - 1) 24)
      (cmod hh 24 + cmod (ch + cdiv mm 60 - 1) 24) (cmod mm 60 + 60) ss (by omega) hss
  · exact n_hour_canonical y m d (cdiv hh 24 + cdiv (ch + cdiv mm 60) 24)
      (cmod hh 24 + cmod (ch + cdiv mm 60) 24) (cmod mm 60) ss (by omega) hss

/-- `impl::n_sec` yields canonical fields for every input: the
normalization cascade is total, with no partial failure. -/
theorem n_sec_canonical (y m d hh mm ss : Int) : Canonical (n_sec y m d hh mm ss) := by
  have h60 := cdm_60 ss
  simp only [n_sec]
  split_ifs with h1 h2 h3 h4 h5
  · have hdpm := days_per_month_bounds y m (by omega) (by omega)
    simp only [Canonical]
    omega
  · exact n_mon_canonical y m d 0 hh mm ss (by omega) (by omega) (by omega)
  · exact n_hour_canonical y m d (cdiv hh 24) (cmod hh 24) mm ss (by omega) (by omega)
  · exact n_min_canonical y m d hh (cdiv mm 60) (cmod mm 60) ss (by omega)
  · exact n_min_canonical y m d hh (cdiv mm 60 + cdiv (cdiv ss 60 - 1) 60)
      (cmod mm 60 + cmod (cdiv ss 60 - 1) 60) (cmod ss 60 + 60) (by omega)
  · exact n_min_canonical y m d hh (cdiv mm 60 + cdiv (cdiv ss 60) 60)
      (cmod mm 60 + cmod (cdiv ss 60) 60) (cmod ss 60) (by omega)

/-- `impl::n_hour` preserves the hour-level linear value and passes minutes
and seconds through. -/
theorem n_hour_virt (y m d cd hh mm ss : Int) (hm1 : 1 ≤ m) (hm2 : m ≤ 12) :
    (n_hour y m d cd hh mm ss).mm = mm ∧ (n_hour y m d cd hh mm ss).ss = ss ∧
      0 ≤ (n_hour y m d cd hh mm ss).hh ∧ (n_hour y m d cd hh mm ss).hh < 24 ∧
      ymd_ord (n_hour y m d cd hh mm ss).y (n_hour y m d cd hh mm ss).m
          (n_hour y m d cd hh mm ss).d * 24 + (n_hour y m d cd hh mm ss).hh =
        (ymd_ord y m d + cd) * 24 + hh := by
  have h24 := cdm_24 hh
  simp only [n_hour]
  split_ifs with h
  · rw [n_mon_id y m d (cd + cdiv hh 24 - 1) (cmod hh 24 + 24) mm ss hm1 hm2]
    obtain ⟨a1, a2, a3, a4, a5, a6, a7, a8⟩ :=
      n_day_spec y m d (cd + cdiv hh 24 - 1) (cmod hh 24 + 24) mm ss hm1 hm2
    exact ⟨a2, a3, by omega, by omega, by omega⟩
  · rw [n_mon_id y m d (cd + cdiv hh 24) (cmod hh 24) mm ss hm1 hm2]
    obtain ⟨a1, a2, a3, a4, a5, a6, a7, a8⟩ :=
      n_day_spec y m d (cd + cdiv hh 24) (cmod hh 24) mm ss hm1 hm2
    exact ⟨a2, a3, by omega, by omega, by omega⟩

/-- `impl::n_min` preserves the minute-level linear value and passes
seconds through. -/
theorem n_min_virt (y m d hh ch mm ss : Int) (hm1 : 1 ≤ m) (hm2 : m ≤ 12) :
    (n_min y m d hh ch mm ss).ss = ss ∧
      0 ≤ (n_min y m d hh ch mm ss).mm ∧ (n_min y m d hh ch mm ss).mm < 60 ∧
      (ymd_ord (n_min y m d hh ch mm ss).y (n_min y m d hh ch mm ss).m
            (n_min y m d hh ch mm ss).d * 24 + (n_min y m d hh ch mm ss).hh) * 60 +
          (n_min y m d hh ch mm ss).mm =
        (ymd_ord y m d * 24 + hh + ch) * 60 + mm := by
  have h60 := cdm_60 mm
  have h24a := cdm_24 hh
  simp only [n_min]
  split_ifs with h
  · have h24b := cdm_24 (ch + cdiv mm 60 - 1)
    obtain ⟨b1, b2, b3, b4, b5⟩ := n_hour_virt y m d
      (cdiv hh 24 + cdiv (ch + cdiv mm 60 - 1) 24)
      (cmod hh 24 + cmod (ch + cdiv mm 60 - 1) 24) (cmod mm 60 + 60) ss hm1 hm2
    exact ⟨b2, by omega, by omega, by omega⟩
  · have h24b := cdm_24 (ch + cdiv mm 60)
    obtain ⟨b1, b2, b3, b4, b5⟩ := n_hour_virt y m d
      (cdiv hh 24 + cdiv (ch + cdiv mm 60) 24)
      (cmod hh 24 + cmod (ch + cdiv mm 60) 24) (cmod mm 60) ss hm1 hm2
    exact ⟨b2, by omega, by omega, by omega⟩

/-- `impl::n_sec` preserves the total seconds value when the month is
already normalized. -/
theorem n_sec_virt (y m d hh mm ss : Int) (hm1 : 1 ≤ m) (hm2 : m ≤ 12) :
    ((ymd_ord (n_sec y m d hh mm ss).y (n_sec y m d hh mm ss).m
          (n_sec y m d hh mm ss).d * 24 + (n_sec y m d hh mm ss).hh) * 60 +
        (n_sec y m d hh mm ss).mm) * 60 + (n_sec y m d hh mm ss).ss =
      ((ymd_ord y m d * 24 + hh) * 60 + mm) * 60 + ss := by
  have h60s := cdm_60 ss
  have h60m := cdm_60 mm
  simp only [n_sec]
  split_ifs with h1 h2 h3 h4 h5
  · rfl
  · rw [n_mon_id y m d 0 hh mm ss hm1 hm2]
    obtain ⟨a1, a2, a3, a4, a5, a6, a7, a8⟩ := n_day_spec y m d 0 hh mm ss hm1 hm2
    omega
  · obtain ⟨b1, b2, b3, b4, b5⟩ := n_hour_virt y m d (cdiv hh 24) (cmod hh 24) mm ss hm1 hm2
    have h24 := cdm_24 hh
    omega
  · obtain ⟨b1, b2, b3, b4⟩ := n_min_virt y m d hh (cdiv mm 60) (cmod mm 60) ss hm1 hm2
    omega
  · obtain ⟨b1, b2, b3, b4⟩ := n_min_virt y m d hh (cdiv mm 60 + cdiv (cdiv ss 60 - 1) 60)
      (cmod mm 60 + cmod (cdiv ss 60 - 1) 60) (cmod ss 60 + 60) hm1 hm2
    have hx := cdm_60 (cdiv ss 60 - 1)
    omega
  · obtain ⟨b1, b2, b3, b4⟩ := n_min_virt y m d hh (cdiv mm 60 + cdiv (cdiv ss 60) 60)
      (cmod mm 60 + cmod (cdiv ss 60) 60) (cmod ss 60) hm1 hm2
    have hx := cdm_60 (cdiv ss 60)
    omega

/-- Exact division of a whole multiple of 400. -/
theorem cdiv_400_mul (k : Int) : cdiv (400 * k) 400 = k := by
  unfold cdiv
  split_ifs <;> omega

/-- `step` at each unit maps a canonical aligned value to a canonical
aligned value and advances the unit's linear count by exactly `n`. -/
theorem step_spec (t : UnitTag) (f : Fields) (n : Int)
    (hc : Canonical f) (ha : AlignedAt t f) :
    Canonical (step t f n) ∧ AlignedAt t (step t f n) ∧
      virt t (step t f n) = virt t f + n := by
  obtain ⟨c1, c2, c3, c4, c5, c6, c7, c8, c9, c10⟩ := hc
  cases t with
  | second =>
      have h60 := cdm_60 n
      have hv := n_sec_virt f.y f.m f.d f.hh (f.mm + cdiv n 60) (f.ss + cmod n 60) c1 c2
      rw [show step UnitTag.second f n =
        n_sec f.y f.m f.d f.hh (f.mm + cdiv n 60) (f.ss + cmod n 60) from rfl]
      refine ⟨n_sec_canonical f.y f.m f.d f.hh (f.mm + cdiv n 60) (f.ss + cmod n 60),
        alignedAt_second _, ?_⟩
      simp only [virt]
      omega
  | minute =>
      have h60 := cdm_60 n
      have hss := (alignedAt_minute_iff f).mp ha
      obtain ⟨b1, b2, b3, b4⟩ := n_min_virt f.y f.m f.d (f.hh + cdiv n 60) 0
        (f.mm + cmod n 60) f.ss c1 c2
      rw [show step UnitTag.minute f n =
        n_min f.y f.m f.d (f.hh + cdiv n 60) 0 (f.mm + cmod n 60) f.ss from rfl]
      refine ⟨n_min_canonical f.y f.m f.d (f.hh + cdiv n 60) 0 (f.mm + cmod n 60) f.ss
        (by omega), (alignedAt_minute_iff _).mpr (by omega), ?_⟩
      simp only [virt]
      omega
  | hour =>
      have h24 := cdm_24 n
      obtain ⟨hmm0, hss0⟩ := (alignedAt_hour_iff f).mp ha
      obtain ⟨b1, b2, b3, b4, b5⟩ := n_hour_virt f.y f.m (f.d + cdiv n 24) 0
        (f.hh + cmod n 24) f.mm f.ss c1 c2
      have hl := ymd_ord_add_d f.y f.m f.d (cdiv n 24)
      rw [show step UnitTag.hour f n =
        n_hour f.y f.m (f.d + cdiv n 24) 0 (f.hh + cmod n 24) f.mm f.ss from rfl]
      refine ⟨n_hour_canonical f.y f.m (f.d + cdiv n 24) 0 (f.hh + cmod n 24) f.mm f.ss
        (by omega) (by omega), (alignedAt_hour_iff _).mpr (by omega), ?_⟩
      simp only [virt]
      omega
  | day =>
      obtain ⟨hhh0, hmm0, hss0⟩ := (alignedAt_day_iff f).mp ha
      obtain ⟨a1, a2, a3, a4, a5, a6, a7, a8⟩ :=
        n_day_spec f.y f.m f.d n f.hh f.mm f.ss c1 c2
      rw [show step UnitTag.day f n = n_day f.y f.m f.d n f.hh f.mm f.ss from rfl]
      refine ⟨⟨a4, a5, a6, a7, by omega, by omega, by omega, by omega, by omega, by omega⟩,
        (alignedAt_day_iff _).mpr (by omega), ?_⟩
      simp only [virt]
      omega
  | month =>
      have h12 := cdm_12 n
      obtain ⟨hd1, hhh0, hmm0, hss0⟩ := (alignedAt_month_iff f).mp ha
      obtain ⟨y1, m1, hb1, hb2, hsum, heq⟩ :=
        n_mon_spec (f.y + cdiv n 12) (f.m + cmod n 12) f.d 0 f.hh f.mm f.ss
      obtain ⟨a1, a2, a3, a4, a5, a6, a7, a8⟩ :=
        n_day_spec y1 m1 f.d 0 f.hh f.mm f.ss hb1 hb2
      have hdpm1 := days_per_month_bounds y1 m1 hb1 hb2
      have hinj := ymd_ord_inj (n_day y1 m1 f.d 0 f.hh f.mm f.ss).y
        (n_day y1 m1 f.d 0 f.hh f.mm f.ss).m (n_day y1 m1 f.d 0 f.hh f.mm f.ss).d
        y1 m1 f.d a4 a5 a6 a7 hb1 hb2 (by omega) (by omega) (by omega)
      rw [show step UnitTag.month f n =
        n_mon (f.y + cdiv n 12) (f.m + cmod n 12) f.d 0 f.hh f.mm f.ss from rfl, heq]
      refine ⟨⟨a4, a5, a6, a7, by omega, by omega, by omega, by omega, by omega, by omega⟩,
        (alignedAt_month_iff _).mpr (by omega), ?_⟩
      simp only [virt]
      omega
  | year =>
      obtain ⟨hm1, hd1, hhh0, hmm0, hss0⟩ := (alignedAt_year_iff f).mp ha
      have hdpm := days_per_month_bounds (f.y + n) f.m (by omega) (by omega)
      rw [show step UnitTag.year f n =
        (⟨f.y + n, f.m, f.d, f.hh, f.mm, f.ss⟩ : Fields) from rfl]
      refine ⟨?_, (alignedAt_year_iff _).mpr ⟨hm1, hd1, hhh0, hmm0, hss0⟩, rfl⟩
      simp only [Canonical]
      omega

/-- On canonical aligned values, the aligning designated constructor is a
no-op after `step`, so `operator+` is exactly `step`. -/
theorem civil_add_spec (t : UnitTag) (f : Fields) (n : Int)
    (hc : Canonical f) (ha : AlignedAt t f) :
    Canonical (civil_add t f n) ∧ AlignedAt t (civil_add t f n) ∧
      virt t (civil_add t f n) = virt t f + n := by
  obtain ⟨h1, h2, h3⟩ := step_spec t f n hc ha
  unfold civil_add
  rw [h2]
  exact ⟨h1, h2, h3⟩

/-- `operator-` (count form) retreats the unit's linear count by exactly
`n`, in both the ordinary branch and the `INT64_MIN` branch. -/
theorem civil_sub_spec (t : UnitTag) (f : Fields) (n : Int)
    (hc : Canonical f) (ha : AlignedAt t f) :
    Canonical (civil_sub t f n) ∧ AlignedAt t (civil_sub t f n) ∧
      virt t (civil_sub t f n) = virt t f - n := by
  unfold civil_sub
  split_ifs with h
  · obtain ⟨h1, h2, h3⟩ := step_spec t f (-n) hc ha
    rw [h2]
    exact ⟨h1, h2, by omega⟩
  · obtain ⟨g1, g2, g3⟩ := step_spec t f (-(n + 1)) hc ha
    obtain ⟨k1, k2, k3⟩ := step_spec t (step t f (-(n + 1))) 1 g1 g2
    rw [k2]
    exact ⟨k1, k2, by omega⟩

/-- `impl::day_difference` equals the difference of the two day ordinals
(in exact integer arithmetic): the cycle-factoring and the doubled
sign-correction preserve the value `cycleCount/400 * 146097 + delta`. -/
theorem day_difference_eq (y1 m1 d1 y2 m2 d2 : Int)
    (hm1 : 1 ≤ m1) (hm1b : m1 ≤ 12) (hm2 : 1 ≤ m2) (hm2b : m2 ≤ 12) :
    day_difference y1 m1 d1 y2 m2 d2 = ymd_ord y1 m1 d1 - ymd_ord y2 m2 d2 := by
  have ha := cdm_400 y1
  have hb := cdm_400 y2
  have p1 := ymd_ord_400k (cmod y1 400) m1 d1 (cdiv y1 400) hm1 hm1b
  rw [show cmod y1 400 + 400 * cdiv y1 400 = y1 from by omega] at p1
  have p2 := ymd_ord_400k (cmod y2 400) m2 d2 (cdiv y2 400) hm2 hm2b
  rw [show cmod y2 400 + 400 * cdiv y2 400 = y2 from by omega] at p2
  simp only [day_difference]
  split_ifs with h1 h2 <;> dsimp only
  · rw [show y1 - cmod y1 400 - (y2 - cmod y2 400) - 2 * 400 =
        400 * (cdiv y1 400 - cdiv y2 400 - 2) from by omega, cdiv_400_mul]
    omega
  · rw [show y1 - cmod y1 400 - (y2 - cmod y2 400) + 2 * 400 =
        400 * (cdiv y1 400 - cdiv y2 400 + 2) from by omega, cdiv_400_mul]
    omega
  · rw [show y1 - cmod y1 400 - (y2 - cmod y2 400) =
        400 * (cdiv y1 400 - cdiv y2 400) from by omega, cdiv_400_mul]
    omega

/-- `difference` at each unit equals the difference of the units' linear
counts. -/
theorem difference_spec (t : UnitTag) (f1 f2 : Fields)
    (hc1 : Canonical f1) (hc2 : Canonical f2) :
    difference t f1 f2 = virt t f1 - virt t f2 := by
  obtain ⟨a1, a2, a3, a4, a5, a6, a7, a8, a9, a10⟩ := hc1
  obtain ⟨b1, b2, b3, b4, b5, b6, b7, b8, b9, b10⟩ := hc2
  have hdd := day_difference_eq f1.y f1.m f1.d f2.y f2.m f2.d a1 a2 b1 b2
  cases t with
  | year => rfl
  | month =>
      simp only [difference, virt, scale_add]
      split_ifs <;> omega
  | day =>
      simp only [difference, virt]
      exact hdd
  | hour =>
      simp only [difference, virt, scale_add]
      rw [hdd]
      split_ifs <;> omega
  | minute =>
      simp only [difference, virt, scale_add]
      rw [hdd]
      split_ifs <;> omega
  | second =>
      simp only [difference, virt, scale_add]
      rw [hdd]
      split_ifs <;> omega

/-- Aligning preserves canonical fields. -/
theorem align_canonical (t : UnitTag) (f : Fields) (hc : Canonical f) :
    Canonical (align t f) := by
  obtain ⟨c1, c2, c3, c4, c5, c6, c7, c8, c9, c10⟩ := hc
  have hb := days_per_month_bounds f.y f.m c1 c2
  have hb1 := days_per_month_bounds f.y 1 (by omega) (by omega)
  cases t <;> simp only [align, Canonical] <;> omega

/-- The `operator<` tower is the lexicographic order on the six fields. -/
theorem civil_lt_iff (f g : Fields) :
    civil_lt f g = true ↔
      (f.y < g.y ∨ (f.y = g.y ∧ (f.m < g.m ∨ (f.m = g.m ∧
        (f.d < g.d ∨ (f.d = g.d ∧ (f.hh < g.hh ∨ (f.hh = g.hh ∧
          (f.mm < g.mm ∨ (f.mm = g.mm ∧ f.ss < g.ss)))))))))) := by
  simp only [civil_lt, Bool.or_eq_true, Bool.and_eq_true, decide_eq_true_eq]

/-- Lexicographic trichotomy for the six fields. -/
theorem civil_lt_trichotomy (f g : Fields) :
    civil_lt f g = true ∨ f = g ∨ civil_lt g f = true := by
  rw [civil_lt_iff, civil_lt_iff]
  cases f
  cases g
  simp only [Fields.mk.injEq]
  omega

/-- The unit's linear count determines a canonical aligned value. -/
theorem virt_inj (t : UnitTag) (f g : Fields)
    (hcf : Canonical f) (hcg : Canonical g)
    (haf : AlignedAt t f) (hag : AlignedAt t g)
    (h : virt t f = virt t g) : f = g := by
  obtain ⟨a1, a2, a3, a4, a5, a6, a7, a8, a9, a10⟩ := hcf
  obtain ⟨b1, b2, b3, b4, b5, b6, b7, b8, b9, b10⟩ := hcg
  cases t with
  | second =>
      simp only [virt] at h
      have hord : ymd_ord f.y f.m f.d = ymd_ord g.y g.m g.d := by omega
      obtain ⟨e1, e2, e3⟩ := ymd_ord_inj f.y f.m f.d g.y g.m g.d
        a1 a2 a3 a4 b1 b2 b3 b4 hord
      cases f
      cases g
      simp only [Fields.mk.injEq]
      simp only at h hord e1 e2 e3 a5 a6 a7 a8 a9 a10 b5 b6 b7 b8 b9 b10
      omega
  | minute =>
      have hsf := (alignedAt_minute_iff f).mp haf
      have hsg := (alignedAt_minute_iff g).mp hag
      simp only [virt] at h
      have hord : ymd_ord f.y f.m f.d = ymd_ord g.y g.m g.d := by omega
      obtain ⟨e1, e2, e3⟩ := ymd_ord_inj f.y f.m f.d g.y g.m g.d
        a1 a2 a3 a4 b1 b2 b3 b4 hord
      cases f
      cases g
      simp only [Fields.mk.injEq]
      simp only at h hord e1 e2 e3 a5 a6 a7 a8 b5 b6 b7 b8 hsf hsg
      omega
  | hour =>
      obtain ⟨hmf, hsf⟩ := (alignedAt_hour_iff f).mp haf
      obtain ⟨hmg, hsg⟩ := (alignedAt_hour_iff g).mp hag
      simp only [virt] at h
      have hord : ymd_ord f.y f.m f.d = ymd_ord g.y g.m g.d := by omega
      obtain ⟨e1, e2, e3⟩ := ymd_ord_inj f.y f.m f.d g.y g.m g.d
        a1 a2 a3 a4 b1 b2 b3 b4 hord
      cases f
      cases g
      simp only [Fields.mk.injEq]
      simp only at h hord e1 e2 e3 a5 a6 b5 b6 hmf hsf hmg hsg
      omega
  | day =>
      obtain ⟨hhf, hmf, hsf⟩ := (alignedAt_day_iff f).mp haf
      obtain ⟨hhg, hmg, hsg⟩ := (alignedAt_day_iff g).mp hag
      simp only [virt] at h
      obtain ⟨e1, e2, e3⟩ := ymd_ord_inj f.y f.m f.d g.y g.m g.d
        a1 a2 a3 a4 b1 b2 b3 b4 h
      cases f
      cases g
      simp only [Fields.mk.injEq]
      simp only at e1 e2 e3 hhf hmf hsf hhg hmg hsg
      omega
  | month =>
      obtain ⟨hdf, hhf, hmf, hsf⟩ := (alignedAt_month_iff f).mp haf
      obtain ⟨hdg, hhg, hmg, hsg⟩ := (alignedAt_month_iff g).mp hag
      simp only [virt] at h
      cases f
      cases g
      simp only [Fields.mk.injEq]
      simp only at h a1 a2 b1 b2 hdf hhf hmf hsf hdg hhg hmg hsg
      omega
  | year =>
      obtain ⟨hmf, hdf, hhf, hmmf, hsf⟩ := (alignedAt_year_iff f).mp haf
      obtain ⟨hmg, hdg, hhg, hmmg, hsg⟩ := (alignedAt_year_iff g).mp hag
      simp only [virt] at h
      cases f
      cases g
      simp only [Fields.mk.injEq]
      simp only at h hmf hdf hhf hmmf hsf hmg hdg hhg hmmg hsg
      omega

/-- On canonical aligned values, the lexicographic order implies the order
of the unit's linear counts. -/
theorem virt_lt_of_lt (t : UnitTag) (f g : Fields)
    (hcf : Canonical f) (hcg : Canonical g)
    (haf : AlignedAt t f) (hag : AlignedAt t g)
    (h : civil_lt f g = true) : virt t f < virt t g := by
  obtain ⟨a1, a2, a3, a4, a5, a6, a7, a8, a9, a10⟩ := hcf
  obtain ⟨b1, b2, b3, b4, b5, b6, b7, b8, b9, b10⟩ := hcg
  rw [civil_lt_iff] at h
  have hord : f.y < g.y ∨ (f.y = g.y ∧ (f.m < g.m ∨ (f.m = g.m ∧ f.d < g.d))) →
      ymd_ord f.y f.m f.d < ymd_ord g.y g.m g.d := fun hlex =>
    ymd_ord_strict_mono f.y f.m f.d g.y g.m g.d a1 a2 a3 a4 b1 b2 b3 b4 hlex
  cases t with
  | second =>
      simp only [virt]
      by_cases htrip : f.y < g.y ∨ (f.y = g.y ∧ (f.m < g.m ∨ (f.m = g.m ∧ f.d < g.d)))
      · have := hord htrip
        omega
      · have heq : f.y = g.y ∧ f.m = g.m ∧ f.d = g.d := by omega
        have : ymd_ord f.y f.m f.d = ymd_ord g.y g.m g.d := by
          rw [heq.1, heq.2.1, heq.2.2]
        omega
  | minute =>
      have hsf := (alignedAt_minute_iff f).mp haf
      have hsg := (alignedAt_minute_iff g).mp hag
      simp only [virt]
      by_cases htrip : f.y < g.y ∨ (f.y = g.y ∧ (f.m < g.m ∨ (f.m = g.m ∧ f.d < g.d)))
      · have := hord htrip
        omega
      · have heq : f.y = g.y ∧ f.m = g.m ∧ f.d = g.d := by omega
        have : ymd_ord f.y f.m f.d = ymd_ord g.y g.m g.d := by
          rw [heq.1, heq.2.1, heq.2.2]
        omega
  | hour =>
      obtain ⟨hmf, hsf⟩ := (alignedAt_hour_iff f).mp haf
      obtain ⟨hmg, hsg⟩ := (alignedAt_hour_iff g).mp hag
      simp only [virt]
      by_cases htrip : f.y < g.y ∨ (f.y = g.y ∧ (f.m < g.m ∨ (f.m = g.m ∧ f.d < g.d)))
      · have := hord htrip
        omega
      · have heq : f.y = g.y ∧ f.m = g.m ∧ f.d = g.d := by omega
        have : ymd_ord f.y f.m f.d = ymd_ord g.y g.m g.d := by
          rw [heq.1, heq.2.1, heq.2.2]
        omega
  | day =>
      obtain ⟨hhf, hmf, hsf⟩ := (alignedAt_day_iff f).mp haf
      obtain ⟨hhg, hmg, hsg⟩ := (alignedAt_day_iff g).mp hag
      simp only [virt]
      have htrip : f.y < g.y ∨ (f.y = g.y ∧ (f.m < g.m ∨ (f.m = g.m ∧ f.d < g.d))) := by
        omega
      exact hord htrip
  | month =>
      obtain ⟨hdf, hhf, hmf, hsf⟩ := (alignedAt_month_iff f).mp haf
      obtain ⟨hdg, hhg, hmg, hsg⟩ := (alignedAt_month_iff g).mp hag
      simp only [virt]
      omega
  | year =>
      obtain ⟨hmf, hdf, hhf, hmmf, hsf⟩ := (alignedAt_year_iff f).mp haf
      obtain ⟨hmg, hdg, hhg, hmmg, hsg⟩ := (alignedAt_year_iff g).mp hag
      simp only [virt]
      omega

/-- On canonical aligned values, `operator<` agrees with the order of the
unit's linear counts. -/
theorem civil_lt_iff_virt (t : UnitTag) (f g : Fields)
    (hcf : Canonical f) (hcg : Canonical g)
    (haf : AlignedAt t f) (hag : AlignedAt t g) :
    civil_lt f g = true ↔ virt t f < virt t g := by
  constructor
  · exact virt_lt_of_lt t f g hcf hcg haf hag
  · intro hv
    rcases civil_lt_trichotomy f g with h | h | h
    · exact h
    · subst h
      omega
    · have := virt_lt_of_lt t g f hcg hcf hag haf h
      omega

theorem msum_succ (k : Nat) (ey m : Int) :
    msum (k + 1) ey m =
      days_per_month ey m +
        (if m + 1 > 12 then msum k (ey + 1) 1 else msum k ey (m + 1)) := rfl

/-- Twelve consecutive months sum to the matching year length. -/
theorem msum_12 (ey m : Int) (hm1 : 1 ≤ m) (hm2 : m ≤ 12) :
    msum 12 ey m = days_per_year ey m := by
  interval_cases m <;>
    norm_num [msum, days_per_month, k_days_per_month, days_per_year] <;>
    split_ifs <;> omega

/-- The century loop runs at most `k` iterations when at most
`36524 * (k+1)` days remain. -/
theorem century_iters_bound :
    ∀ (fuel k : Nat) (yi d : Int), d ≤ 36524 * ((k : Int) + 1) →
      century_iters fuel yi d ≤ k := by
  intro fuel
  induction fuel with
  | zero =>
      intro k yi d h
      simp only [century_iters]
      omega
  | succ fuel ih =>
      intro k yi d h
      simp only [century_iters]
      split_ifs with hexit hge
      · omega
      · cases k with
        | zero =>
            have hb := days_per_century_bounds yi
            omega
        | succ k =>
            have := ih k (yi + 100 - 400) (d - days_per_century yi)
              (by have hb := days_per_century_bounds yi; push_cast at h ⊢; omega)
            omega
      · cases k with
        | zero =>
            have hb := days_per_century_bounds yi
            omega
        | succ k =>
            have := ih k (yi + 100) (d - days_per_century yi)
              (by have hb := days_per_century_bounds yi; push_cast at h ⊢; omega)
            omega

/-- The 4-year loop runs at most `k` iterations when at most
`1460 * (k+1)` days remain. -/
theorem fouryears_iters_bound :
    ∀ (fuel k : Nat) (yi d : Int), d ≤ 1460 * ((k : Int) + 1) →
      fouryears_iters fuel yi d ≤ k := by
  intro fuel
  induction fuel with
  | zero =>
      intro k yi d h
      simp only [fouryears_iters]
      omega
  | succ fuel ih =>
      intro k yi d h
      simp only [fouryears_iters]
      split_ifs with hexit hge
      · omega
      · cases k with
        | zero =>
            have hb := days_per_4years_bounds yi
            omega
        | succ k =>
            have := ih k (yi + 4 - 400) (d - days_per_4years yi)
              (by have hb := days_per_4years_bounds yi; push_cast at h ⊢; omega)
            omega
      · cases k with
        | zero =>
            have hb := days_per_4years_bounds yi
            omega
        | succ k =>
            have := ih k (yi + 4) (d - days_per_4years yi)
              (by have hb := days_per_4years_bounds yi; push_cast at h ⊢; omega)
            omega

/-- The single-year loop runs at most `k` iterations when at most
`365 * (k+1)` days remain. -/
theorem year_iters_bound :
    ∀ (fuel k : Nat) (ey m d : Int), d ≤ 365 * ((k : Int) + 1) →
      year_iters fuel ey m d ≤ k := by
  intro fuel
  induction fuel with
  | zero =>
      intro k ey m d h
      simp only [year_iters]
      omega
  | succ fuel ih =>
      intro k ey m d h
      simp only [year_iters]
      split_ifs with hexit
      · omega
      · cases k with
        | zero =>
            have hb := days_per_year_bounds ey m
            omega
        | succ k =>
            have := ih k (ey + 1) m (d - days_per_year ey m)
              (by have hb := days_per_year_bounds ey m; push_cast at h ⊢; omega)
            omega

/-- The month loop runs at most `k` iterations when at most a `k+1`-month
window of days remains. -/
theorem month_iters_bound :
    ∀ (fuel k : Nat) (ey m d : Int), 1 ≤ m → m ≤ 12 → d ≤ msum (k + 1) ey m →
      month_iters fuel ey m d ≤ k := by
  intro fuel
  induction fuel with
  | zero =>
      intro k ey m d hm1 hm2 hsum
      simp only [month_iters]
      omega
  | succ fuel ih =>
      intro k ey m d hm1 hm2 hsum
      simp only [month_iters]
      split_ifs with hexit hwrap
      · omega
      · cases k with
        | zero =>
            rw [msum_succ] at hsum
            simp only [msum, ite_self, add_zero] at hsum
            omega
        | succ k =>
            rw [msum_succ, if_pos hwrap] at hsum
            have := ih k (ey + 1) 1 (d - days_per_month ey m) (by omega) (by omega)
              (by omega)
            omega
      · cases k with
        | zero =>
            rw [msum_succ] at hsum
            simp only [msum, ite_self, add_zero] at hsum
            omega
        | succ k =>
            rw [msum_succ, if_neg hwrap] at hsum
            have := ih k ey (m + 1) (d - days_per_month ey m) (by omega) (by omega)
              (by omega)
            omega

/-- In the doubled weekday tables, the target slot found by the inner scan
is one to seven places past the base slot, and exactly seven when the
target weekday equals the base weekday. -/
theorem scan_offsets (b w : Weekday) :
    (scan_forw b 14 0 + 1 ≤ scan_forw w 13 (scan_forw b 14 0 + 1) ∧
      scan_forw w 13 (scan_forw b 14 0 + 1) ≤ scan_forw b 14 0 + 7 ∧
      (b = w → scan_forw w 13 (scan_forw b 14 0 + 1) = scan_forw b 14 0 + 7)) ∧
    (scan_back b 14 0 + 1 ≤ scan_back w 13 (scan_back b 14 0 + 1) ∧
      scan_back w 13 (scan_back b 14 0 + 1) ≤ scan_back b 14 0 + 7 ∧
      (b = w → scan_back w 13 (scan_back b 14 0 + 1) = scan_back b 14 0 + 7)) := by
  cases b <;> cases w <;> decide

theorem civil_le_iff (a b : Fields) :
    civil_le a b = true ↔ ¬civil_lt b a = true := by
  simp [civil_le]

/-- C1: every construction of a civil time from arbitrary integer fields,
and every arithmetic step (addition and subtraction, of which increment and
decrement are the n = 1 cases) at any of the six units, yields canonical
fields (month in [1,12], day in [1, days-in-month], hour in [0,23], minute
and second in [0,59]); normalization is a total function with no partial
failure. -/
theorem claim_C1_normalization_canonical :
    ∀ (t : UnitTag) (y m d hh mm ss n : Int) (f : Fields),
      Canonical (civil_make t y m d hh mm ss) ∧
        (Canonical f → AlignedAt t f →
          Canonical (civil_add t f n) ∧ Canonical (civil_sub t f n)) := by
  intro t y m d hh mm ss n f
  refine ⟨align_canonical t _ (n_sec_canonical y m d hh mm ss), fun hc ha => ?_⟩
  exact ⟨(civil_add_spec t f n hc ha).1, (civil_sub_spec t f n hc ha).1⟩

theorem claim_C1_witness :
    Canonical (civil_make .second 2016 2 30 25 (-3) 100) ∧
      Canonical (civil_add .month civil_default 14) ∧
      Canonical (civil_sub .month civil_default 14) :=
  ⟨(claim_C1_normalization_canonical .second 2016 2 30 25 (-3) 100 14 civil_default).1,
    ((claim_C1_normalization_canonical .month 1970 1 1 0 0 0 14 civil_default).2
      (by decide) (by decide)).1,
    ((claim_C1_normalization_canonical .month 1970 1 1 0 0 0 14 civil_default).2
      (by decide) (by decide)).2⟩

/-- C2: for every canonical aligned value and every representable signed
64-bit count n (including the minimum), (v + n) - n equals v and the
same-unit difference (v + n) - v equals n, at each of the six units. -/
theorem claim_C2_roundtrip :
    ∀ (t : UnitTag) (f : Fields) (n : Int), Canonical f → AlignedAt t f →
      int64_min ≤ n → n < 2 ^ 63 →
      civil_sub t (civil_add t f n) n = f ∧
        civil_diff t (civil_add t f n) f = n := by
  intro t f n hc ha h1 h2
  obtain ⟨a1, a2, a3⟩ := civil_add_spec t f n hc ha
  obtain ⟨b1, b2, b3⟩ := civil_sub_spec t (civil_add t f n) n a1 a2
  constructor
  · exact virt_inj t _ f b1 hc b2 ha (by omega)
  · rw [show civil_diff t (civil_add t f n) f = difference t (civil_add t f n) f from rfl,
      difference_spec t _ f a1 hc]
    omega

theorem claim_C2_witness :
    civil_sub .second (civil_add .second civil_default 86461) 86461 = civil_default ∧
      civil_diff .second (civil_add .second civil_default 86461) civil_default = 86461 :=
  claim_C2_roundtrip .second civil_default 86461 (by decide) (by decide) (by decide)
    (by decide)

/-- C3: for every unit and all canonical values aligned at that unit,
adding to b the signed same-unit difference a - b yields exactly a. -/
theorem claim_C3_difference_roundtrip :
    ∀ (t : UnitTag) (a b : Fields), Canonical a → AlignedAt t a →
      Canonical b → AlignedAt t b →
      civil_add t b (civil_diff t a b) = a := by
  intro t a b hca haa hcb hab
  obtain ⟨k1, k2, k3⟩ := civil_add_spec t b (civil_diff t a b) hcb hab
  have hd : civil_diff t a b = virt t a - virt t b := difference_spec t a b hca hcb
  exact virt_inj t _ a k1 hca k2 haa (by omega)

theorem claim_C3_witness :
    civil_add .day (⟨2023, 12, 31, 0, 0, 0⟩ : Fields)
        (civil_diff .day (⟨2024, 2, 29, 0, 0, 0⟩ : Fields) ⟨2023, 12, 31, 0, 0, 0⟩) =
      (⟨2024, 2, 29, 0, 0, 0⟩ : Fields) :=
  claim_C3_difference_roundtrip .day ⟨2024, 2, 29, 0, 0, 0⟩ ⟨2023, 12, 31, 0, 0, 0⟩
    (by decide) (by decide) (by decide) (by decide)

/-- C4: for normalized date triples, `impl::day_difference` computed in
exact integer arithmetic equals the difference of the naive `impl::ymd_ord`
ordinals: the mod-400 cycle factoring and the doubled two-cycle
sign-correction preserve the recombined value. -/
theorem claim_C4_day_difference_exact :
    ∀ y1 m1 d1 y2 m2 d2 : Int,
      1 ≤ m1 → m1 ≤ 12 → 1 ≤ d1 → d1 ≤ days_per_month y1 m1 →
      1 ≤ m2 → m2 ≤ 12 → 1 ≤ d2 → d2 ≤ days_per_month y2 m2 →
      day_difference y1 m1 d1 y2 m2 d2 = ymd_ord y1 m1 d1 - ymd_ord y2 m2 d2 := by
  intro y1 m1 d1 y2 m2 d2 h1 h2 h3 h4 h5 h6 h7 h8
  exact day_difference_eq y1 m1 d1 y2 m2 d2 h1 h2 h5 h6

theorem claim_C4_witness :
    day_difference 2000 3 1 (-400) 2 29 = ymd_ord 2000 3 1 - ymd_ord (-400) 2 29 :=
  claim_C4_day_difference_exact 2000 3 1 (-400) 2 29 (by decide) (by decide) (by decide)
    (by decide) (by decide) (by decide) (by decide) (by decide)

/-- C5 counterexample: the month accessor of a year-unit value constructed
from 2016-03-14 09:26:53 reads 1, not 0, refuting the claim that fields
finer than the value's unit read as zero. -/
theorem claim_C5_counterexample :
    (civil_make .year 2016 3 14 9 26 53).m = 1 ∧
      ¬(civil_make .year 2016 3 14 9 26 53).m = 0 := by
  decide

/-- C5 amended: the accessors for fields finer than the value's unit read
as that field's minimum canonical value: month and day read 1, while hour,
minute and second read 0. -/
theorem claim_C5_amended :
    ∀ y m d hh mm ss : Int,
      (civil_make .year y m d hh mm ss).m = 1 ∧
        (civil_make .year y m d hh mm ss).d = 1 ∧
        (civil_make .year y m d hh mm ss).hh = 0 ∧
        (civil_make .year y m d hh mm ss).mm = 0 ∧
        (civil_make .year y m d hh mm ss).ss = 0 ∧
        (civil_make .month y m d hh mm ss).d = 1 ∧
        (civil_make .month y m d hh mm ss).hh = 0 ∧
        (civil_make .month y m d hh mm ss).mm = 0 ∧
        (civil_make .month y m d hh mm ss).ss = 0 ∧
        (civil_make .day y m d hh mm ss).hh = 0 ∧
        (civil_make .day y m d hh mm ss).mm = 0 ∧
        (civil_make .day y m d hh mm ss).ss = 0 ∧
        (civil_make .hour y m d hh mm ss).mm = 0 ∧
        (civil_make .hour y m d hh mm ss).ss = 0 ∧
        (civil_make .minute y m d hh mm ss).ss = 0 := by
  intro y m d hh mm ss
  exact ⟨rfl, rfl, rfl, rfl, rfl, rfl, rfl, rfl, rfl, rfl, rfl, rfl, rfl, rfl, rfl⟩

/-- C6: the construction fixtures normalize as stated:
2016-02-30 becomes 2016-03-01, year 1 month 13 day 1 becomes year 2
January 1, and 1970-01-01 with hour -1 becomes 1969-12-31 23:00:00. -/
theorem claim_C6_fixtures :
    civil_make .second 2016 2 30 0 0 0 = civil_make .second 2016 3 1 0 0 0 ∧
      civil_make .second 1 13 1 0 0 0 = civil_make .second 2 1 1 0 0 0 ∧
      civil_make .second 1970 1 1 (-1) 0 0 = civil_make .second 1969 12 31 23 0 0 := by
  decide

/-- C7: after the pre-loop reduction of `n_day` the remaining day count is
in (0, 146097]; from there the century loop runs at most 4 iterations, the
4-year loop at most 25, the single-year loop at most 4, and the month loop
at most 11 - bounds independent of the magnitude of the input delta, for
any fuel, so the fuelled loops of this embedding compute the source's
unbounded loops. -/
theorem claim_C7_loop_bounds :
    (∀ y m d cd : Int, 1 ≤ m → m ≤ 12 →
        0 < (n_day_prep y m d cd).2 ∧ (n_day_prep y m d cd).2 ≤ 146097) ∧
      (∀ (fuel : Nat) (yi d : Int), d ≤ 146097 → century_iters fuel yi d ≤ 4) ∧
      (∀ (fuel : Nat) (yi d : Int), d ≤ 36525 → fouryears_iters fuel yi d ≤ 25) ∧
      (∀ (fuel : Nat) (ey m d : Int), d ≤ 1461 → year_iters fuel ey m d ≤ 4) ∧
      (∀ (fuel : Nat) (ey m d : Int), 1 ≤ m → m ≤ 12 → d ≤ days_per_year ey m →
        month_iters fuel ey m d ≤ 11) := by
  refine ⟨?_, ?_, ?_, ?_, ?_⟩
  · intro y m d cd hm1 hm2
    exact ⟨(n_day_prep_spec y m d cd hm1 hm2).2.1, (n_day_prep_spec y m d cd hm1 hm2).2.2⟩
  · intro fuel yi d h
    exact century_iters_bound fuel 4 yi d (by omega)
  · intro fuel yi d h
    exact fouryears_iters_bound fuel 25 yi d (by omega)
  · intro fuel ey m d h
    exact year_iters_bound fuel 4 ey m d (by omega)
  · intro fuel ey m d hm1 hm2 h
    refine month_iters_bound fuel 11 ey m d hm1 hm2 ?_
    show d ≤ msum 12 ey m
    rw [msum_12 ey m hm1 hm2]
    omega

theorem claim_C7_witness :
    (0 < (n_day_prep 2024 2 900000 (-123456789)).2 ∧
        (n_day_prep 2024 2 900000 (-123456789)).2 ≤ 146097) ∧
      century_iters 10 5 146097 ≤ 4 ∧
      fouryears_iters 30 5 36525 ≤ 25 ∧
      year_iters 10 100 5 1461 ≤ 4 ∧
      month_iters 20 2024 3 365 ≤ 11 :=
  ⟨claim_C7_loop_bounds.1 2024 2 900000 (-123456789) (by decide) (by decide),
    claim_C7_loop_bounds.2.1 10 5 146097 (by decide),
    claim_C7_loop_bounds.2.2.1 30 5 36525 (by decide),
    claim_C7_loop_bounds.2.2.2.1 10 100 5 1461 (by decide),
    claim_C7_loop_bounds.2.2.2.2 20 2024 3 365 (by decide) (by decide) (by decide)⟩

/-- C8: for every canonical day-aligned value and every target weekday, the
next-weekday result lies strictly within (d, d + 7 days] and the
prev-weekday result strictly within [d - 7 days, d); when the target equals
the current weekday the result is exactly 7 days away, never d itself. -/
theorem claim_C8_weekday_interval :
    ∀ (f : Fields) (wd : Weekday), Canonical f → AlignedAt .day f →
      civil_lt f (next_weekday f wd) = true ∧
      civil_le (next_weekday f wd) (civil_add .day f 7) = true ∧
      civil_le (civil_sub .day f 7) (prev_weekday f wd) = true ∧
      civil_lt (prev_weekday f wd) f = true ∧
      (get_weekday f = wd →
        next_weekday f wd = civil_add .day f 7 ∧
          prev_weekday f wd = civil_sub .day f 7) := by
  intro f wd hc ha
  obtain ⟨⟨hf1, hf2, hf3⟩, ⟨hb1, hb2, hb3⟩⟩ := scan_offsets (get_weekday f) wd
  set i := scan_forw (get_weekday f) 14 0 with hi
  set j := scan_forw wd 13 (i + 1) with hj
  set i2 := scan_back (get_weekday f) 14 0 with hi2
  set j2 := scan_back wd 13 (i2 + 1) with hj2
  have hnext : next_weekday f wd = civil_add .day f ((j : Int) - (i : Int)) := rfl
  have hprev : prev_weekday f wd = civil_sub .day f ((j2 : Int) - (i2 : Int)) := rfl
  obtain ⟨k1, k2, k3⟩ := civil_add_spec .day f ((j : Int) - (i : Int)) hc ha
  obtain ⟨s1, s2, s3⟩ := civil_add_spec .day f 7 hc ha
  obtain ⟨t1, t2, t3⟩ := civil_sub_spec .day f ((j2 : Int) - (i2 : Int)) hc ha
  obtain ⟨u1, u2, u3⟩ := civil_sub_spec .day f 7 hc ha
  refine ⟨?_, ?_, ?_, ?_, ?_⟩
  · rw [hnext, civil_lt_iff_virt .day f _ hc k1 ha k2, k3]
    omega
  · rw [hnext, civil_le_iff, civil_lt_iff_virt .day _ _ s1 k1 s2 k2, k3, s3]
    omega
  · rw [hprev, civil_le_iff, civil_lt_iff_virt .day _ _ t1 u1 t2 u2, t3, u3]
    omega
  · rw [hprev, civil_lt_iff_virt .day _ f t1 hc t2 ha, t3]
    omega
  · intro hbw
    have e1 := hf3 hbw
    have e2 := hb3 hbw
    constructor
    · rw [hnext, show ((j : Int) - (i : Int)) = 7 from by omega]
    · rw [hprev, show ((j2 : Int) - (i2 : Int)) = 7 from by omega]

theorem claim_C8_witness :
    civil_lt civil_default (next_weekday civil_default .monday) = true ∧
      civil_le (next_weekday civil_default .monday) (civil_add .day civil_default 7) = true ∧
      civil_le (civil_sub .day civil_default 7) (prev_weekday civil_default .monday) = true ∧
      civil_lt (prev_weekday civil_default .monday) civil_default = true ∧
      (get_weekday civil_default = .monday →
        next_weekday civil_default .monday = civil_add .day civil_default 7 ∧
          prev_weekday civil_default .monday = civil_sub .day civil_default 7) :=
  claim_C8_weekday_interval civil_default .monday (by decide) (by decide)

/-- C9: the weekday derivation returns Thursday for 1970-01-01 and Saturday
for 2000-01-01. -/
theorem claim_C9_weekday_fixtures :
    get_weekday (civil_make .day 1970 1 1 0 0 0) = .thursday ∧
      get_weekday (civil_make .day 2000 1 1 0 0 0) = .saturday := by
  decide

/-- C10: a default-constructed civil time of any unit is exactly
1970-01-01 00:00:00, already canonical and aligned at every unit, and
equals the value constructed from the single field 1970 with defaulted
arguments. -/
theorem claim_C10_default :
    ∀ t : UnitTag, civil_default = civil_make t 1970 1 1 0 0 0 ∧
      Canonical civil_default ∧ AlignedAt t civil_default := by
  intro t
  cases t <;> exact ⟨by decide, by decide, by decide⟩

end Cctz
